import Mathlib

set_option maxRecDepth 8000

/-!
Verification development for the soql-generator compiler pipeline
(tokenizer, recursive-descent parser, AST rendering, query generation),
shallowly embedded from src/engine/{token,lexer,ast,parse,querygen}.rs.

Iteration over a peekable token or character stream is modelled by
explicit state passing; the bounded loops and recursions of the source
are given a fuel parameter so that every definition is a computable
structural recursion.  Process aborts (std::process::exit in the lexer)
and panics (Option::unwrap / Result::unwrap in the parser) are modelled
as distinguished outcome values.
-/

namespace Soql

/-- The single-quote character, written via its code point. -/
def quoteChar : Char := Char.ofNat 39

/-- A one-character string holding the single quote. -/
def squote : String := String.mk [quoteChar]

/-- Token kinds, mirroring enum TokenKind in engine/token.rs.  The source
enum as given lacks a Null variant even though the lexer constructs
TokenKind::Null; the variant is included because the lexer requires it.
Kinds whose Rust name is a Lean keyword carry a Kw suffix. -/
inductive TokenKind where
  | eof
  | illegal
  | comma
  | dot
  | lparen
  | rparen
  | integer
  | identifire
  | stringObject
  | plus
  | minus
  | select
  | whereKw
  | orderby
  | groupby
  | limit
  | openKw
  | andKw
  | orKw
  | like
  | eq
  | notEq
  | greater
  | greaterEq
  | less
  | lessEq
  | trueKw
  | falseKw
  | asc
  | desc
  | nullKw
  deriving DecidableEq, Repr

/-- Display text of a token kind, mirroring impl fmt::Display for TokenKind. -/
def TokenKind.toDisplay : TokenKind → String
  | .eof => "EOF"
  | .illegal => "ILLEGAL"
  | .comma => ","
  | .dot => "."
  | .lparen => "("
  | .rparen => ")"
  | .integer => "INTEGER"
  | .identifire => "IDENTIFIRE"
  | .stringObject => "STRING"
  | .plus => "+"
  | .minus => "-"
  | .select => "SELECT"
  | .whereKw => "WHERE"
  | .orderby => "ORDERBY"
  | .groupby => "GROUPBY"
  | .limit => "LIMIT"
  | .openKw => "OPEN"
  | .andKw => "AND"
  | .orKw => "OR"
  | .like => "LIKE"
  | .eq => "="
  | .notEq => "!="
  | .greater => ">"
  | .greaterEq => ">="
  | .less => "<"
  | .lessEq => "<="
  | .trueKw => "TRUE"
  | .falseKw => "FALSE"
  | .asc => "ASC"
  | .desc => "DESC"
  | .nullKw => "NULL"

/-- A classified lexical unit, mirroring struct Token in engine/token.rs. -/
structure Token where
  kind : TokenKind
  literal : String
  deriving DecidableEq, Repr

/-- Token constructor, mirroring Token::new. -/
def Token.new (kind : TokenKind) (literal : String) : Token := ⟨kind, literal⟩

/-- Mirrors Token::is_query_method. -/
def Token.is_query_method (t : Token) : Bool :=
  match t.kind with
  | .select | .whereKw | .orderby | .groupby | .limit | .openKw => true
  | _ => false

/-- Mirrors Token::is_operator. -/
def Token.is_operator (t : Token) : Bool :=
  match t.kind with
  | .orKw | .andKw | .eq | .notEq | .greater | .greaterEq | .less | .lessEq | .like => true
  | _ => false

/-- Mirrors Token::is_dot. -/
def Token.is_dot (t : Token) : Bool :=
  match t.kind with
  | .dot => true
  | _ => false

/-- Mirrors fn is_literal in engine/lexer.rs (c.is_alphabetic() || c == underscore;
Char.isAlpha stands in for Rust's is_alphabetic on the ASCII inputs considered). -/
def is_literal (c : Char) : Bool := c.isAlpha || c = '_'

/-- Character class consumed inside an identifier-shaped literal. -/
def is_literal_or_digit (c : Char) : Bool := is_literal c || c.isDigit

/-- Mirrors fn consume_integer: the maximal digit run after the current char,
returning the consumed literal and the remaining characters. -/
def consume_integer (input : List Char) (current_c : Char) : String × List Char :=
  (String.mk (current_c :: input.takeWhile Char.isDigit), input.dropWhile Char.isDigit)

/-- Mirrors fn consume_literal: the maximal alphabetic/underscore/digit run. -/
def consume_literal (input : List Char) (current_c : Char) : String × List Char :=
  (String.mk (current_c :: input.takeWhile is_literal_or_digit),
   input.dropWhile is_literal_or_digit)

/-- Mirrors fn consume_string_object: everything up to (excluding) the next
single quote; the closing quote is consumed, and an unterminated literal
consumes to end of input. -/
def consume_string_object (input : List Char) : String × List Char :=
  (String.mk (input.takeWhile (fun c => c != quoteChar)),
   (input.dropWhile (fun c => c != quoteChar)).drop 1)

/-- Mirrors fn search_keywords: exact-match classification of an
identifier-shaped literal. -/
def search_keywords (literal : String) : Token :=
  match literal with
  | "select" => Token.new .select literal
  | "where" => Token.new .whereKw literal
  | "orderby" => Token.new .orderby literal
  | "groupby" => Token.new .groupby literal
  | "limit" => Token.new .limit literal
  | "open" => Token.new .openKw literal
  | "and" | "AND" => Token.new .andKw literal
  | "or" | "OR" => Token.new .orKw literal
  | "like" | "LIKE" => Token.new .like literal
  | "asc" | "ASC" => Token.new .asc literal
  | "desc" | "DESC" => Token.new .desc literal
  | "true" | "TRUE" => Token.new .trueKw literal
  | "false" | "FALSE" => Token.new .falseKw literal
  | "null" | "NULL" => Token.new .nullKw literal
  | _ => Token.new .identifire literal

/-- Outcome of the tokenizer: a token list, or the process abort the source
performs (std::process::exit(1)) when a query-method keyword is not
immediately preceded by a dot, or fuel exhaustion (never reached with the
fuel supplied by tokenize). -/
inductive LexResult where
  | done (tokens : List Token)
  | exited
  | outOfFuel
  deriving DecidableEq, Repr

/-- One iteration of the tokenize loop of engine/lexer.rs on the current
character: the remaining characters and the new emitted-token list, or none
for the process abort (std::process::exit(1)) when a query-method keyword is
not immediately preceded by a dot. -/
def lexStep (c : Char) (input : List Char) (tokens : List Token) :
    Option (List Char × List Token) :=
  if c.isWhitespace then some (input, tokens)
  else if c = '=' then some (input, tokens ++ [Token.new .eq "="])
  else if c = '+' then some (input, tokens ++ [Token.new .plus "+"])
  else if c = '-' then some (input, tokens ++ [Token.new .minus "-"])
  else if c = '>' then
    match input with
    | '=' :: rest => some (rest, tokens ++ [Token.new .greaterEq ">="])
    | _ => some (input, tokens ++ [Token.new .greater ">"])
  else if c = '<' then
    match input with
    | '=' :: rest => some (rest, tokens ++ [Token.new .lessEq "<="])
    | _ => some (input, tokens ++ [Token.new .less "<"])
  else if c = ',' then some (input, tokens ++ [Token.new .comma ","])
  else if c = '.' then some (input, tokens ++ [Token.new .dot "."])
  else if c = '(' then some (input, tokens ++ [Token.new .lparen "("])
  else if c = ')' then some (input, tokens ++ [Token.new .rparen ")"])
  else if c = '!' then
    match input with
    | '=' :: rest => some (rest, tokens ++ [Token.new .notEq "!="])
    | _ => some (input, tokens ++ [Token.new .illegal "!"])
  else if c = quoteChar then
    let r := consume_string_object input
    some (r.2, tokens ++ [Token.new .stringObject r.1])
  else if c.isDigit then
    let r := consume_integer input c
    some (r.2, tokens ++ [Token.new .integer r.1])
  else if is_literal c then
    let r := consume_literal input c
    let token := search_keywords r.1
    if token.is_query_method then
      match tokens.getLast? with
      | some prev =>
        if prev.is_dot then some (r.2, tokens.dropLast ++ [token])
        else none
      | none => none
    else some (r.2, tokens ++ [token])
  else some (input, tokens ++ [Token.new .illegal (String.mk [c])])

/-- The tokenize loop of engine/lexer.rs over an explicit character list,
with one unit of fuel spent per loop iteration. -/
def lexChars : Nat → List Char → List Token → LexResult
  | _, [], tokens => .done (tokens ++ [Token.new .eof ""])
  | 0, _ :: _, _ => .outOfFuel
  | fuel + 1, c :: input, tokens =>
    match lexStep c input tokens with
    | some (rest, tokens2) => lexChars fuel rest tokens2
    | none => .exited

/-- Mirrors fn tokenize: each loop iteration consumes at least one
character, so input length plus one is always sufficient fuel. -/
def tokenize (input : String) : LexResult :=
  lexChars (input.data.length + 1) input.data []

/-- Parse-time failure modes, mirroring enum ParseError in engine/parse.rs. -/
inductive ParseError where
  | unexpectedToken (expected : String) (got : String)
  | invalidMethod (method : String)
  | eofError
  deriving DecidableEq, Repr

/-- Parser state, mirroring struct Parser: the peekable token iterator is a
token list together with the current token. -/
structure Parser where
  tokens : List Token
  current_token : Token
  deriving DecidableEq, Repr

/-- Mirrors Parser::new. -/
def Parser.new (tokens : List Token) : Parser :=
  ⟨tokens, Token.new .illegal ""⟩

/-- Stepping the iterator when Parser::next_token's result is discarded:
the current token is replaced when a token remains, and untouched otherwise. -/
def Parser.advance (s : Parser) : Parser :=
  match s.tokens with
  | [] => s
  | t :: ts => ⟨ts, t⟩

/-- Mirrors Parser::next_token. -/
def Parser.next_token (s : Parser) : Option (Token × Parser) :=
  match s.tokens with
  | [] => none
  | t :: ts => some (t, ⟨ts, t⟩)

/-- Mirrors Parser::peek_token. -/
def Parser.peek_token (s : Parser) : Option Token := s.tokens.head?

/-- Mirrors Parser::current_token_is. -/
def Parser.current_token_is (s : Parser) (kind : TokenKind) : Bool :=
  s.current_token.kind == kind

/-- Mirrors Parser::peek_token_is. -/
def Parser.peek_token_is (s : Parser) (kind : TokenKind) : Bool :=
  match s.peek_token with
  | some t => t.kind == kind
  | none => false

/-- Mirrors Parser::peek_token_is_query. -/
def Parser.peek_token_is_query (s : Parser) : Bool :=
  match s.peek_token with
  | some t => t.is_query_method
  | none => false

/-- Node variants, mirroring enum NodeType in engine/ast.rs. -/
inductive NodeType where
  | program
  | table
  | selectStatement
  | whereStatement
  | groupByStatement
  | orderByStatement
  | limitStatement
  | openStatement
  | closeStatement
  | fieldLiteral
  | orderByOptionLiteral
  | integerLiteral
  | stringLiteral
  | booleanLiteral
  | nullLiteral
  | value
  | prefixExpression
  | infixExpression
  | condition
  | operatorLiteral
  deriving DecidableEq, Repr

/-- Mirrors struct FieldLiteral. -/
structure FieldLiteral where
  token : Token
  name : String
  deriving DecidableEq, Repr

/-- Mirrors FieldLiteral::string. -/
def FieldLiteral.string (f : FieldLiteral) : String := f.name

/-- Mirrors struct OrderByOptionLiteral. -/
structure OrderByOptionLiteral where
  token : Token
  name : String
  deriving DecidableEq, Repr

/-- Mirrors OrderByOptionLiteral::string. -/
def OrderByOptionLiteral.string (o : OrderByOptionLiteral) : String := o.name

/-- Mirrors struct IntegerLiteral (value is a Rust i64). -/
structure IntegerLiteral where
  token : Token
  value : Int
  deriving DecidableEq, Repr

/-- Mirrors IntegerLiteral::string (i64 to_string). -/
def IntegerLiteral.string (i : IntegerLiteral) : String := toString i.value

/-- Mirrors struct OperatorLiteral. -/
structure OperatorLiteral where
  token : Token
  value : String
  deriving DecidableEq, Repr

/-- Mirrors OperatorLiteral::string. -/
def OperatorLiteral.string (o : OperatorLiteral) : String := o.value

/-- Expression nodes that the parser actually constructs as values of
Box of dyn Expression: Value, PrefixExpression, InfixExpression, Condition. -/
inductive Expr where
  | value (token : Token) (value : String)
  | prefixExpression (token : Token) (operator : String) (right : Expr)
  | infixExpression (token : Token) (left : Expr) (operator : String) (right : Expr)
  | condition (token : Token) (field : FieldLiteral) (operator : OperatorLiteral) (value : Expr)
  deriving DecidableEq, Repr

/-- Rendering of expression nodes, mirroring the Node::string impls in
engine/ast.rs (Value quotes identifier and string-object tokens and is bare
otherwise; PrefixExpression and InfixExpression parenthesize; Condition is
field, operator, value separated by spaces). -/
def Expr.string : Expr → String
  | .value token v =>
    match token.kind with
    | .identifire => squote ++ v ++ squote
    | .stringObject => squote ++ v ++ squote
    | _ => v
  | .prefixExpression _ op right => "(" ++ op ++ right.string ++ ")"
  | .infixExpression _ left op right =>
    "(" ++ left.string ++ " " ++ op ++ " " ++ right.string ++ ")"
  | .condition _ field op v => field.string ++ " " ++ op.string ++ " " ++ v.string

/-- Statement nodes, mirroring the Statement impls in engine/ast.rs. -/
inductive Stmt where
  | table (token : Token) (table_name : String)
  | selectStatement (token : Token) (fields : List FieldLiteral)
  | groupByStatement (token : Token) (fields : List FieldLiteral)
  | whereStatement (token : Token) (expression : Expr)
  | orderByStatement (token : Token) (options : List OrderByOptionLiteral)
  | limitStatement (token : Token) (limit : IntegerLiteral)
  | openStatement (token : Token)
  deriving DecidableEq, Repr

/-- Comma-space join, mirroring Vec::join(", "). -/
def joinComma (xs : List String) : String := String.intercalate ", " xs

/-- Rendering of statement nodes, mirroring the Node::string impls in
engine/ast.rs: Table is its name; SelectStatement and OrderByStatement are
the comma-joined parts; WhereStatement and GroupByStatement prepend their
keyword literal and wrap the body in parentheses (as the source does);
LimitStatement is the integer text; OpenStatement is its keyword literal. -/
def Stmt.string : Stmt → String
  | .table _ name => name
  | .selectStatement _ fields => joinComma (fields.map FieldLiteral.string)
  | .groupByStatement token fields =>
    token.literal ++ "(" ++ joinComma (fields.map FieldLiteral.string) ++ ")"
  | .whereStatement token e => token.literal ++ "(" ++ e.string ++ ")"
  | .orderByStatement _ options => joinComma (options.map OrderByOptionLiteral.string)
  | .limitStatement _ limit => limit.string
  | .openStatement token => token.literal

/-- Mirrors the node_type methods of the statement impls. -/
def Stmt.node_type : Stmt → NodeType
  | .table .. => .table
  | .selectStatement .. => .selectStatement
  | .groupByStatement .. => .groupByStatement
  | .whereStatement .. => .whereStatement
  | .orderByStatement .. => .orderByStatement
  | .limitStatement .. => .limitStatement
  | .openStatement .. => .openStatement

/-- Decimal value of a digit list; none when a non-digit occurs. -/
def decimalValue : List Char → Nat → Option Nat
  | [], acc => some acc
  | c :: cs, acc =>
    if c.isDigit then decimalValue cs (acc * 10 + (c.toNat - 48)) else none

/-- Mirrors str::parse::<i64>(): an optional sign, then one or more ASCII
digits, rejecting anything else and values outside the i64 range. -/
def parseI64 (s : String) : Option Int :=
  let signDigits : Int × List Char :=
    match s.data with
    | '+' :: rest => (1, rest)
    | '-' :: rest => (-1, rest)
    | cs => (1, cs)
  if signDigits.2 = [] then none
  else
    match decimalValue signDigits.2 0 with
    | none => none
    | some n =>
      let v : Int := signDigits.1 * n
      if v < -(2 ^ 63) ∨ 2 ^ 63 - 1 < v then none else some v

/-- Outcome of a parsing function: success with a result and the advanced
parser state, a typed ParseError, a Rust panic (a failed unwrap or an
unreachable), or fuel exhaustion. -/
inductive PRes (α : Type) where
  | ok (a : α) (s : Parser)
  | err (e : ParseError)
  | panicked
  | outOfFuel
  deriving DecidableEq, Repr

/-- Propagation of failures, modelling the question-mark operator. -/
def PRes.pass {α β : Type} : PRes α → (α → Parser → PRes β) → PRes β
  | .ok a s, f => f a s
  | .err e, _ => .err e
  | .panicked, _ => .panicked
  | .outOfFuel, _ => .outOfFuel

/-- Mirrors Parser::expect_peek; the error branch unwraps the peeked token,
which panics when the stream is exhausted. -/
def Parser.expect_peek (s : Parser) (kind : TokenKind) : PRes Unit :=
  if s.peek_token_is kind then .ok () s.advance
  else
    match s.peek_token with
    | some t => .err (.unexpectedToken kind.toDisplay t.literal)
    | none => .panicked

/-- Mirrors Parser::parse_table: the first token must be an identifier and
the token after it must be a query method. -/
def parse_table (s : Parser) : PRes Stmt :=
  let s := s.advance
  if s.current_token.kind ≠ .identifire then
    .err (.unexpectedToken "SObject Name" s.current_token.literal)
  else
    let table_name := s.current_token.literal
    let token := s.current_token
    if s.peek_token_is_query then .ok (.table token table_name) s
    else
      match s.peek_token with
      | some t => .err (.unexpectedToken "query method after SObject Name" t.literal)
      | none => .panicked

/-- Mirrors Parser::parse_field: an identifier optionally extended by one
dot and a second identifier. -/
def parse_field (s : Parser) : PRes FieldLiteral :=
  let token := s.current_token
  let name := s.current_token.literal
  if s.peek_token_is .dot then
    let s1 := s.advance
    (s1.expect_peek .identifire).pass fun _ s2 =>
      .ok ⟨token, name ++ "." ++ s2.current_token.literal⟩ s2
  else .ok ⟨token, name⟩ s

/-- Mirrors Parser::parse_operator_literal. -/
def parse_operator_literal (s : Parser) : PRes OperatorLiteral :=
  match s.peek_token with
  | some t =>
    if t.is_operator then
      let s1 := s.advance
      .ok ⟨s1.current_token, s1.current_token.literal⟩ s1
    else .err (.unexpectedToken "Operator(AND, OR, =, >, >=, <, <=, LIKE)" t.literal)
  | none => .panicked

/-- Mirrors Parser::parse_value together with the inlined
Parser::parse_prefix_expression it mutually recurses with: a value token is
a string object or an integer, optionally below a chain of sign prefixes. -/
def parse_value : Nat → Parser → PRes Expr
  | 0, _ => .outOfFuel
  | fuel + 1, s =>
    match s.peek_token with
    | some t =>
      match t.kind with
      | .plus | .minus =>
        match s.next_token with
        | none => .panicked
        | some (token, s1) =>
          (parse_value fuel s1).pass fun right s2 =>
            .ok (.prefixExpression token token.literal right) s2
      | .stringObject | .integer =>
        let s1 := s.advance
        .ok (.value s1.current_token s1.current_token.literal) s1
      | _ => .err (.unexpectedToken "" t.literal)
    | none => .panicked

/-- Mirrors Parser::parse_condition. -/
def parse_condition (fuel : Nat) (s : Parser) : PRes Expr :=
  match s.next_token with
  | none => .panicked
  | some (token, s1) =>
    (parse_field s1).pass fun field s2 =>
    (parse_operator_literal s2).pass fun operator s3 =>
    (parse_value fuel s3).pass fun value s4 =>
      .ok (.condition token field operator value) s4

/-- Phase marker for parse_where_expressions: parsing the first atom, or
looping over the trailing AND/OR operators with the left expression built
so far. -/
inductive WMode where
  | start
  | loopMode (left : Expr)
  deriving DecidableEq, Repr

/-- Mirrors Parser::parse_where_expressions together with the inlined
Parser::parse_grouped_condition and Parser::parse_infix_expression.  In
start phase the first atom is a condition or a parenthesized group; in loop
phase an AND/OR operator takes the parse of the entire remainder as its
right operand, while a right parenthesis or end of input stops the loop. -/
def parse_where_expressions : Nat → WMode → Parser → PRes Expr
  | 0, _, _ => .outOfFuel
  | fuel + 1, .start, s =>
    match s.peek_token with
    | some t =>
      match t.kind with
      | .identifire =>
        (parse_condition fuel s).pass fun e s1 =>
          parse_where_expressions fuel (.loopMode e) s1
      | .lparen =>
        let s1 := s.advance
        (parse_where_expressions fuel .start s1).pass fun e s2 =>
        (s2.expect_peek .rparen).pass fun _ s3 =>
          parse_where_expressions fuel (.loopMode e) s3
      | _ => .err (.unexpectedToken "where clause" s.current_token.literal)
    | none => .err (.unexpectedToken "where clause" s.current_token.literal)
  | fuel + 1, .loopMode left, s =>
    match s.peek_token with
    | some t =>
      match t.kind with
      | .andKw | .orKw =>
        match s.next_token with
        | none => .panicked
        | some (infix_token, s1) =>
          (parse_where_expressions fuel .start s1).pass fun right s2 =>
            parse_where_expressions fuel
              (.loopMode (.infixExpression infix_token left infix_token.literal right)) s2
      | .rparen => .ok left s
      | .eof => .ok left s
      | _ => .err (.unexpectedToken "where clause" s.current_token.literal)
    | none => .ok left s

/-- The loop of Parser::parse_fields. -/
def parse_fields_loop : Nat → List FieldLiteral → Parser → PRes (List FieldLiteral)
  | 0, _, _ => .outOfFuel
  | fuel + 1, fields, s =>
    if s.current_token_is .rparen then .ok fields s
    else
      (parse_field s).pass fun field s1 =>
      if s1.peek_token_is .rparen then .ok (fields ++ [field]) s1
      else
        (s1.expect_peek .comma).pass fun _ s2 =>
          parse_fields_loop fuel (fields ++ [field]) s2.advance

/-- Mirrors Parser::parse_fields. -/
def parse_fields (fuel : Nat) (s : Parser) : PRes (List FieldLiteral) :=
  parse_fields_loop fuel [] s.advance

/-- The loop of Parser::parse_orderby_options: ASC is consumed with no
suffix, DESC is consumed and appended to the field name. -/
def parse_orderby_options_loop :
    Nat → List OrderByOptionLiteral → Parser → PRes (List OrderByOptionLiteral)
  | 0, _, _ => .outOfFuel
  | fuel + 1, options, s =>
    if s.peek_token_is .rparen then .ok options s
    else
      (parse_field s).pass fun field s1 =>
      let stepped : FieldLiteral × Parser :=
        if s1.peek_token_is .asc then (field, s1.advance)
        else if s1.peek_token_is .desc then
          let s2 := s1.advance
          (⟨field.token, field.name ++ " " ++ s2.current_token.literal⟩, s2)
        else (field, s1)
      let option : OrderByOptionLiteral := ⟨stepped.1.token, stepped.1.name⟩
      let s3 := stepped.2
      if s3.peek_token_is .rparen then .ok (options ++ [option]) s3
      else
        (s3.expect_peek .comma).pass fun _ s4 =>
          parse_orderby_options_loop fuel (options ++ [option]) s4.advance

/-- Mirrors Parser::parse_orderby_options. -/
def parse_orderby_options (fuel : Nat) (s : Parser) : PRes (List OrderByOptionLiteral) :=
  parse_orderby_options_loop fuel [] s.advance

/-- Mirrors Parser::parse_integer_literal: the literal of whatever token
comes next is parsed with parse::<i64>().unwrap(), panicking on failure. -/
def parse_integer_literal (s : Parser) : PRes IntegerLiteral :=
  match s.next_token with
  | none => .panicked
  | some (token, s1) =>
    match parseI64 token.literal with
    | some value => .ok ⟨token, value⟩ s1
    | none => .panicked

/-- Mirrors Parser::parse_select_groupby_statement. -/
def parse_select_groupby_statement (fuel : Nat) (s : Parser) : PRes Stmt :=
  match s.next_token with
  | none => .panicked
  | some (token, s1) =>
    (s1.expect_peek .lparen).pass fun _ s2 =>
    (parse_fields fuel s2).pass fun fields s3 =>
    (s3.expect_peek .rparen).pass fun _ s4 =>
      match token.kind with
      | .select => .ok (.selectStatement token fields) s4
      | .groupby => .ok (.groupByStatement token fields) s4
      | _ => .panicked

/-- Mirrors Parser::parse_where_statement. -/
def parse_where_statement (fuel : Nat) (s : Parser) : PRes Stmt :=
  match s.next_token with
  | none => .panicked
  | some (token, s1) =>
    (s1.expect_peek .lparen).pass fun _ s2 =>
    (parse_where_expressions fuel .start s2).pass fun expression s3 =>
    (s3.expect_peek .rparen).pass fun _ s4 =>
      .ok (.whereStatement token expression) s4

/-- Mirrors Parser::parse_orderby_statement. -/
def parse_orderby_statement (fuel : Nat) (s : Parser) : PRes Stmt :=
  match s.next_token with
  | none => .panicked
  | some (token, s1) =>
    (s1.expect_peek .lparen).pass fun _ s2 =>
    (parse_orderby_options fuel s2).pass fun options s3 =>
    (s3.expect_peek .rparen).pass fun _ s4 =>
      .ok (.orderByStatement token options) s4

/-- Mirrors Parser::parse_limit_statement. -/
def parse_limit_statement (s : Parser) : PRes Stmt :=
  match s.next_token with
  | none => .panicked
  | some (token, s1) =>
    (s1.expect_peek .lparen).pass fun _ s2 =>
    (parse_integer_literal s2).pass fun limit s3 =>
    (s3.expect_peek .rparen).pass fun _ s4 =>
      .ok (.limitStatement token limit) s4

/-- Mirrors Parser::parse_open_statement. -/
def parse_open_statement (s : Parser) : PRes Stmt :=
  match s.next_token with
  | none => .panicked
  | some (token, s1) =>
    (s1.expect_peek .lparen).pass fun _ s2 =>
    (s2.expect_peek .rparen).pass fun _ s3 =>
      .ok (.openStatement token) s3

/-- Mirrors Parser::parse_statement: dispatch on the peeked token kind; the
None branch is the source's unreachable. -/
def parse_statement (fuel : Nat) (s : Parser) : PRes Stmt :=
  match s.peek_token with
  | some t =>
    match t.kind with
    | .select | .groupby => parse_select_groupby_statement fuel s
    | .whereKw => parse_where_statement fuel s
    | .orderby => parse_orderby_statement fuel s
    | .limit => parse_limit_statement s
    | .openKw => parse_open_statement s
    | _ => .err (.invalidMethod t.literal)
  | none => .panicked

/-- The statement loop of Parser::parse. -/
def parse_loop : Nat → List Stmt → Parser → PRes (List Stmt)
  | 0, _, _ => .outOfFuel
  | fuel + 1, statements, s =>
    match s.peek_token with
    | none => .ok statements s
    | some t =>
      if t.kind = .eof then .ok statements s
      else if t.is_query_method then
        (parse_statement fuel s).pass fun st s1 =>
          parse_loop fuel (statements ++ [st]) s1
      else .err (.invalidMethod t.literal)

/-- Mirrors Parser::parse: the table statement, then the method statements. -/
def Parser.parse (fuel : Nat) (s : Parser) : PRes (List Stmt) :=
  (parse_table s).pass fun t s1 => parse_loop fuel [t] s1

/-- Query accumulator, mirroring struct Query in engine/querygen.rs (the
field named from in the source is from_ here). -/
structure Query where
  select : Option String
  from_ : String
  where_clause : Option String
  orderby : Option String
  limit : Option String
  open_browser : Bool
  deriving DecidableEq, Repr

/-- Mirrors Query::default(). -/
def Query.default : Query := ⟨none, "", none, none, none, false⟩

/-- Mirrors Query::generate. -/
def Query.generate (q : Query) : String :=
  let query := "SELECT " ++ q.select.getD "Id" ++ " FROM " ++ q.from_
  let query :=
    match q.where_clause with
    | some w => query ++ " WHERE " ++ w
    | none => query
  if q.open_browser then query ++ " LIMIT 1"
  else
    let query :=
      match q.orderby with
      | some o => query ++ " ORDER BY " ++ o
      | none => query
    match q.limit with
    | some l => query ++ " LIMIT " ++ l
    | none => query

/-- Mirrors Query::evalute_statement (the source's spelling): dispatch on
node_type, writing the rendered string of the node into the one field the
variant owns; every other node type is the invalid-node-type error. -/
def Query.evalute_statement (q : Query) (node : Stmt) : Except String Query :=
  match node.node_type with
  | .table => .ok { q with from_ := node.string }
  | .selectStatement => .ok { q with select := some node.string }
  | .groupByStatement => .ok { q with select := some node.string }
  | .whereStatement => .ok { q with where_clause := some node.string }
  | .orderByStatement => .ok { q with orderby := some node.string }
  | .limitStatement => .ok { q with limit := some node.string }
  | .openStatement => .ok { q with open_browser := true }
  | _ => .error "invalid node type"

/-- Mirrors Query::evaluate: fold evalute_statement over the program. -/
def Query.evaluate (q : Query) (statements : List Stmt) : Except String Query :=
  match statements with
  | [] => .ok q
  | st :: rest =>
    match q.evalute_statement st with
    | .ok q1 => q1.evaluate rest
    | .error e => .error e

/-- Outcome of the whole pipeline of engine.rs build_query. -/
inductive BuildResult where
  | ok (generated : String) (open_browser : Bool)
  | parseErr (e : ParseError)
  | exited
  | panicked
  | evalErr (msg : String)
  | outOfFuel
  deriving DecidableEq, Repr

/-- Mirrors fn build_query in engine.rs: tokenize, parse, evaluate into a
fresh accumulator, generate. -/
def build_query (expr : String) : BuildResult :=
  match tokenize expr with
  | .exited => .exited
  | .outOfFuel => .outOfFuel
  | .done tokens =>
    match Parser.parse (tokens.length + 1) (Parser.new tokens) with
    | .ok program _ =>
      match Query.default.evaluate program with
      | .ok q => .ok q.generate q.open_browser
      | .error e => .evalErr e
    | .err e => .parseErr e
    | .panicked => .panicked
    | .outOfFuel => .outOfFuel

/-- The rendered string of the where expression of a parsed two-statement
program whose second statement is a where statement; none otherwise. -/
def parsed_where_expr_string (input : String) : Option String :=
  match tokenize input with
  | .done tokens =>
    match Parser.parse (tokens.length + 1) (Parser.new tokens) with
    | .ok [_, .whereStatement _ e] _ => some e.string
    | _ => none
  | _ => none

/-- Re-tokenizing a rendered where-expression and re-parsing it with
parse_where_expressions, as the round-trip property does. -/
def reparse_where_expr (rendered : String) : Option Expr :=
  match tokenize rendered with
  | .done tokens =>
    match parse_where_expressions (tokens.length + 1) .start (Parser.new tokens) with
    | .ok e _ => some e
    | _ => none
  | _ => none

/-- A single condition atom of a where-expression chain: a field identifier
token, an operator token and a value token. -/
structure WCond where
  field : String
  op : Token
  val : Token
  deriving DecidableEq, Repr

/-- Well-formedness of a chain condition: the operator token satisfies
Token::is_operator and the value token is an integer or string object. -/
def WCond.ok (c : WCond) : Prop :=
  c.op.is_operator = true ∧ (c.val.kind = .integer ∨ c.val.kind = .stringObject)

instance (c : WCond) : Decidable c.ok := by
  unfold WCond.ok; infer_instance

/-- The token list of one chain condition. -/
def condTokens (c : WCond) : List Token :=
  [Token.new .identifire c.field, c.op, c.val]

/-- The token list of a condition chain joined by AND/OR operator tokens. -/
def chainTokens : WCond → List (Token × WCond) → List Token
  | c, [] => condTokens c
  | c, (op, c2) :: rest => condTokens c ++ op :: chainTokens c2 rest

/-- The expression node the parser builds from one chain condition. -/
def parsedCond (c : WCond) : Expr :=
  .condition (Token.new .identifire c.field)
    ⟨Token.new .identifire c.field, c.field⟩
    ⟨c.op, c.op.literal⟩
    (.value c.val c.val.literal)

/-- The right-nested expression tree of a condition chain: each operator
takes the entire remainder of the chain as its right operand. -/
def chainExpr : WCond → List (Token × WCond) → Expr
  | c, [] => parsedCond c
  | c, (op, c2) :: rest => .infixExpression op (parsedCond c) op.literal (chainExpr c2 rest)

/-- The value token of the last condition of a chain (the parser's current
token once the chain is consumed). -/
def chainLastVal : WCond → List (Token × WCond) → Token
  | c, [] => c.val
  | _, (_, c2) :: rest => chainLastVal c2 rest

/-- Characters of a lexer identifier: nonempty, leading alphabetic or
underscore, all characters alphabetic, underscore or digit. -/
def validIdentChars : List Char → Bool
  | [] => false
  | c :: cs => is_literal c && cs.all is_literal_or_digit

/-- An identifier string as the lexer produces it: identifier-shaped
characters that the keyword table classifies as an identifier. -/
def validIdent (s : String) : Bool :=
  validIdentChars s.data && ((search_keywords s).kind == .identifire)

/-- Operator tokens as the lexer produces them for condition positions
(every Token::is_operator kind paired with its lexer literal). -/
def cond_op_ok (t : Token) : Bool :=
  (t.kind == .eq && t.literal == "=") ||
  (t.kind == .notEq && t.literal == "!=") ||
  (t.kind == .greater && t.literal == ">") ||
  (t.kind == .greaterEq && t.literal == ">=") ||
  (t.kind == .less && t.literal == "<") ||
  (t.kind == .lessEq && t.literal == "<=") ||
  (t.kind == .like && (t.literal == "like" || t.literal == "LIKE")) ||
  (t.kind == .andKw && (t.literal == "and" || t.literal == "AND")) ||
  (t.kind == .orKw && (t.literal == "or" || t.literal == "OR"))

/-- AND/OR tokens as the lexer produces them for infix positions. -/
def infix_op_ok (t : Token) : Bool :=
  (t.kind == .andKw && (t.literal == "and" || t.literal == "AND")) ||
  (t.kind == .orKw && (t.literal == "or" || t.literal == "OR"))

/-- Value tokens as the lexer produces them, sign-prefix free: an integer
token whose literal is a nonempty digit run, or a string-object token whose
literal contains no single quote. -/
def value_tok_ok (t : Token) : Bool :=
  (t.kind == .integer && !t.literal.data.isEmpty && t.literal.data.all Char.isDigit) ||
  (t.kind == .stringObject && t.literal.data.all (fun c => c != quoteChar))

/-- Where-expressions whose conditions carry lexer-shaped field, operator
and unsigned value tokens, paired with the token list their rendering
re-tokenizes to.  This family is exactly the parser-producible
where-expressions that contain no sign-prefix value. -/
inductive WFTok : Expr → List Token → Prop where
  | condSimple (a : String) (op val : Token)
      (ha : validIdent a = true) (hop : cond_op_ok op = true) (hv : value_tok_ok val = true) :
      WFTok
        (.condition (Token.new .identifire a) ⟨Token.new .identifire a, a⟩
          ⟨op, op.literal⟩ (.value val val.literal))
        [Token.new .identifire a, op, val]
  | condDotted (a b : String) (op val : Token)
      (ha : validIdent a = true) (hb : validIdent b = true)
      (hop : cond_op_ok op = true) (hv : value_tok_ok val = true) :
      WFTok
        (.condition (Token.new .identifire a) ⟨Token.new .identifire a, a ++ "." ++ b⟩
          ⟨op, op.literal⟩ (.value val val.literal))
        [Token.new .identifire a, Token.new .dot ".", Token.new .identifire b, op, val]
  | infixNode (op : Token) (l r : Expr) (lt rt : List Token)
      (hop : infix_op_ok op = true) (hl : WFTok l lt) (hr : WFTok r rt) :
      WFTok (.infixExpression op l op.literal r)
        (Token.new .lparen "(" :: lt ++ op :: rt ++ [Token.new .rparen ")"])

/-- Recursion depth needed by parse_where_expressions below an expression. -/
def exprDepth : Expr → Nat
  | .condition .. => 1
  | .infixExpression _ l _ r => exprDepth l + exprDepth r + 4
  | _ => 0

/-- The parser's current token after consuming the token list of a
well-formed where-expression. -/
def lastTokOf : Expr → Token
  | .condition _ _ _ (.value t _) => t
  | .infixExpression .. => Token.new .rparen ")"
  | _ => Token.new .illegal ""

/-- The lexer loop can reach the given done outcome from this state. -/
def LexDone (cs : List Char) (acc ts : List Token) : Prop :=
  ∃ fuel, lexChars fuel cs acc = .done ts

/-- No dot token immediately precedes a query-method token. -/
def no_dot_method_pair (ts : List Token) : Prop :=
  List.Chain' (fun a b => ¬(a.is_dot = true ∧ b.is_query_method = true)) ts

/-- No dot token immediately precedes another dot token. -/
def no_dot_dot_pair (ts : List Token) : Prop :=
  List.Chain' (fun a b => ¬(a.is_dot = true ∧ b.is_dot = true)) ts

/-- Whether the token list ends with a dot token. -/
def ends_with_dot (ts : List Token) : Bool :=
  match ts.getLast? with
  | some t => t.is_dot
  | none => false

/-- Separator condition after a rendered fragment: end of input, a space or
a closing parenthesis, so that no token glues onto the fragment. -/
def sep_after : List Char → Bool
  | [] => true
  | c :: _ => c = ' ' || c = ')'

/-- No identifier-shaped character follows, so an identifier run stops. -/
def not_ident_glue : List Char → Bool
  | [] => true
  | c :: _ => !(is_literal_or_digit c)

/-- Boolean check that no dot token immediately precedes another dot token. -/
def no_dot_dot_b : List Token → Bool
  | [] => true
  | [_] => true
  | a :: b :: rest => !(a.is_dot && b.is_dot) && no_dot_dot_b (b :: rest)

/-- Shadow of the lexer loop: true when the emitted-token list never
contains a dot token immediately followed by another dot token at any
iteration.  Branches that abort or run out of fuel are vacuously true. -/
def dot_safe_chars : Nat → List Char → List Token → Bool
  | _, [], _ => true
  | 0, _ :: _, _ => true
  | fuel + 1, c :: input, tokens =>
    match lexStep c input tokens with
    | some (rest, tokens2) => no_dot_dot_b tokens2 && dot_safe_chars fuel rest tokens2
    | none => true

end Soql

namespace Soql

/-! ## Helper lemmas -/

theorem is_operator_kind_ne_dot (t : Token) (h : t.is_operator = true) :
    (t.kind == TokenKind.dot) = false := by
  unfold Token.is_operator at h
  cases hk : t.kind <;> simp [hk] at h ⊢

/-! ## Claim theorems -/

/-- C1 counterexample: parsing the bare input "Account" does not succeed;
parse_table rejects an end-of-input follower with an unexpected-token
error, so generate is never reached. -/
theorem c1_counterexample :
    build_query "Account" = .parseErr (.unexpectedToken "query method after SObject Name" "") ∧
    build_query "Account" ≠ .ok "SELECT Id FROM Account" false := by
  constructor
  · rfl
  · decide

/-- C1 amended: a table identifier must be immediately followed by a query
method keyword; an end-of-input follower (or any other non-method token)
yields the unexpected-token error, as on the bare input "Account".  A query
accumulator holding only the table node still generates the claimed
"SELECT Id FROM Account". -/
theorem c1_theorem :
    (∀ (name : String) (t : Token) (rest : List Token) (cur : Token),
      parse_table ⟨Token.new .identifire name :: t :: rest, cur⟩ =
        if t.is_query_method then
          .ok (.table (Token.new .identifire name) name) ⟨t :: rest, Token.new .identifire name⟩
        else .err (.unexpectedToken "query method after SObject Name" t.literal)) ∧
    (Query.default.evaluate [Stmt.table (Token.new .identifire "Account") "Account"]).map
        Query.generate = .ok "SELECT Id FROM Account" := by
  constructor
  · intro name t rest cur
    by_cases hq : t.is_query_method
    · simp [parse_table, Parser.advance, Parser.peek_token_is_query, Parser.peek_token,
        Token.new, hq]
    · simp [parse_table, Parser.advance, Parser.peek_token_is_query, Parser.peek_token,
        Token.new, hq]
  · rfl

/-- C3: the input "select(Id)" makes the tokenizer abort the whole process
(std::process::exit(1) in the dot check), and "Account.limit(hoge)" makes
the parser panic (parse::<i64>().unwrap() on a non-integer literal); neither
input produces the typed parse error the claim requires. -/
theorem c3_theorem :
    build_query "select(Id)" = .exited ∧
    build_query "Account.limit(hoge)" = .panicked := by
  exact ⟨rfl, rfl⟩

/-- C4: GroupByStatement::string and WhereStatement::string prepend the
method keyword and wrap the body in parentheses, so a GroupBy statement does
not render as the bare comma-joined field names and a Where statement is not
unwrapped of its keyword; the keyword-wrapped text flows into the generated
query.  SelectStatement::string does render as the comma-joined names. -/
theorem c4_theorem :
    build_query "Opportunity.groupby(Id, Name)" =
      .ok "SELECT groupby(Id, Name) FROM Opportunity" false ∧
    build_query "Opportunity.where(Id = 123)" =
      .ok "SELECT Id FROM Opportunity WHERE where(Id = 123)" false ∧
    (Stmt.groupByStatement (Token.new .groupby "groupby")
      [⟨Token.new .identifire "Id", "Id"⟩, ⟨Token.new .identifire "Name", "Name"⟩]).string =
      "groupby(Id, Name)" ∧
    (Stmt.whereStatement (Token.new .whereKw "where")
      (.condition (Token.new .identifire "Id") ⟨Token.new .identifire "Id", "Id"⟩
        ⟨Token.new .eq "=", "="⟩ (.value (Token.new .integer "123") "123"))).string =
      "where(Id = 123)" ∧
    (Stmt.selectStatement (Token.new .select "select")
      [⟨Token.new .identifire "Id", "Id"⟩, ⟨Token.new .identifire "Name", "Name"⟩]).string =
      "Id, Name" := by
  refine ⟨rfl, rfl, rfl, rfl, rfl⟩

/-- C5: when open_browser is set, generate appends the literal LIMIT 1
after the SELECT/FROM fragment and the WHERE fragment when present and
returns immediately, independently of any stored orderby or limit value;
the claimed pipeline example produces exactly the claimed query. -/
theorem c5_theorem :
    (∀ (q : Query) (o l : Option String), q.open_browser = true →
      Query.generate { q with orderby := o, limit := l } = Query.generate q) ∧
    (∀ q : Query, q.open_browser = true →
      Query.generate q =
        "SELECT " ++ q.select.getD "Id" ++ " FROM " ++ q.from_ ++
          (match q.where_clause with
           | some w => " WHERE " ++ w
           | none => "") ++ " LIMIT 1") ∧
    build_query "Account.orderby(Name).limit(5).open()" =
      .ok "SELECT Id FROM Account LIMIT 1" true := by
  refine ⟨?_, ?_, rfl⟩
  · intro q o l h
    simp [Query.generate, h]
  · intro q h
    cases hw : q.where_clause <;> simp [Query.generate, h, hw, String.append_assoc]

/-- C5 witness: a concrete accumulator with open_browser set. -/
theorem c5_witness :
    Query.generate ⟨none, "Account", none, some "Name", some "5", true⟩ =
      Query.generate ⟨none, "Account", none, none, none, true⟩ :=
  c5_theorem.1 ⟨none, "Account", none, none, none, true⟩ (some "Name") (some "5") rfl

/-- C6 counterexample: a TRUE keyword in value position is rejected by
parse_value with an unexpected-token error, so the value production does not
admit the TRUE, FALSE, NULL keywords. -/
theorem c6_counterexample :
    build_query "Account.where(IsPaid = TRUE)" = .parseErr (.unexpectedToken "" "TRUE") := by
  rfl

/-- C6 amended: the value production admits only integer and quoted-string
literals (optionally below sign prefixes); the keywords TRUE, FALSE and
NULL are rejected with an unexpected-token error.  A Value node renders
quoted exactly when its token was an identifier or string object and bare
otherwise. -/
theorem c6_theorem :
    (∀ (fuel : Nat) (s : Parser) (t : Token), s.peek_token = some t →
      t.kind = .trueKw ∨ t.kind = .falseKw ∨ t.kind = .nullKw →
      parse_value (fuel + 1) s = .err (.unexpectedToken "" t.literal)) ∧
    (∀ (fuel : Nat) (t : Token) (ts : List Token) (cur : Token),
      t.kind = .integer ∨ t.kind = .stringObject →
      parse_value (fuel + 1) ⟨t :: ts, cur⟩ = .ok (.value t t.literal) ⟨ts, t⟩) ∧
    (∀ (tok : Token) (v : String), (Expr.value tok v).string =
      if tok.kind = .identifire ∨ tok.kind = .stringObject then squote ++ v ++ squote
      else v) := by
  refine ⟨?_, ?_, ?_⟩
  · intro fuel s t hp hk
    rcases hk with hk | hk | hk <;> simp [parse_value, hp, hk]
  · intro fuel t ts cur hk
    rcases hk with hk | hk <;>
      simp [parse_value, Parser.peek_token, Parser.advance, hk]
  · intro tok v
    cases hk : tok.kind <;> simp [Expr.string, hk]

/-- C6 witness: concrete instances of the three parts. -/
theorem c6_witness :
    parse_value 1 ⟨[Token.new .trueKw "TRUE"], Token.new .illegal ""⟩ =
      .err (.unexpectedToken "" "TRUE") ∧
    parse_value 1 ⟨[Token.new .integer "7"], Token.new .illegal ""⟩ =
      .ok (.value (Token.new .integer "7") "7") ⟨[], Token.new .integer "7"⟩ ∧
    (Expr.value (Token.new .integer "7") "7").string = "7" := by
  refine ⟨?_, ?_, ?_⟩
  · exact c6_theorem.1 0 ⟨[Token.new .trueKw "TRUE"], Token.new .illegal ""⟩
      (Token.new .trueKw "TRUE") rfl (Or.inl rfl)
  · exact c6_theorem.2.1 0 (Token.new .integer "7") [] (Token.new .illegal "")
      (Or.inl rfl)
  · have h := c6_theorem.2.2 (Token.new .integer "7") "7"
    simpa using h

/-- C7 counterexample: the uppercase variant SELECT and the mixed-case
variant And are classified as identifiers, not as their keyword kinds, so
keyword classification is not case-insensitive. -/
theorem c7_counterexample :
    (search_keywords "SELECT").kind = .identifire ∧
    (search_keywords "And").kind = .identifire ∧
    TokenKind.identifire ≠ TokenKind.select ∧
    TokenKind.identifire ≠ TokenKind.andKw := by
  refine ⟨rfl, rfl, by decide, by decide⟩

end Soql

namespace Soql

/-- C7 amended: keyword classification is by exact match, not
case-insensitive: the six method keywords are recognized only in lowercase,
the logical, sort, boolean and null keywords only in all-lowercase or
all-uppercase spelling, and every other identifier-shaped literal is an
identifier. -/
theorem c7_theorem : ∀ s : String,
    (search_keywords s).literal = s ∧
    ((search_keywords s).kind = .select ↔ s = "select") ∧
    ((search_keywords s).kind = .whereKw ↔ s = "where") ∧
    ((search_keywords s).kind = .orderby ↔ s = "orderby") ∧
    ((search_keywords s).kind = .groupby ↔ s = "groupby") ∧
    ((search_keywords s).kind = .limit ↔ s = "limit") ∧
    ((search_keywords s).kind = .openKw ↔ s = "open") ∧
    ((search_keywords s).kind = .andKw ↔ s = "and" ∨ s = "AND") ∧
    ((search_keywords s).kind = .orKw ↔ s = "or" ∨ s = "OR") ∧
    ((search_keywords s).kind = .like ↔ s = "like" ∨ s = "LIKE") ∧
    ((search_keywords s).kind = .asc ↔ s = "asc" ∨ s = "ASC") ∧
    ((search_keywords s).kind = .desc ↔ s = "desc" ∨ s = "DESC") ∧
    ((search_keywords s).kind = .trueKw ↔ s = "true" ∨ s = "TRUE") ∧
    ((search_keywords s).kind = .falseKw ↔ s = "false" ∨ s = "FALSE") ∧
    ((search_keywords s).kind = .nullKw ↔ s = "null" ∨ s = "NULL") ∧
    ((search_keywords s).kind = .identifire ↔
      s ∉ ["select", "where", "orderby", "groupby", "limit", "open", "and", "AND",
        "or", "OR", "like", "LIKE", "asc", "ASC", "desc", "DESC", "true", "TRUE",
        "false", "FALSE", "null", "NULL"]) := by
  intro s
  unfold search_keywords
  split <;> simp_all [Token.new]

/-- C8: each statement variant updates exactly the one accumulator field it
owns, leaving every other field unchanged, and when two statements of the
same kind are evaluated in order the later one determines the final value of
the shared field. -/
theorem c8_theorem :
    (∀ (q : Query) (t : Token) (n : String),
      Query.evalute_statement q (.table t n) = .ok { q with from_ := n }) ∧
    (∀ (q : Query) (t : Token) (fs : List FieldLiteral),
      Query.evalute_statement q (.selectStatement t fs) =
        .ok { q with select := some (Stmt.string (.selectStatement t fs)) }) ∧
    (∀ (q : Query) (t : Token) (fs : List FieldLiteral),
      Query.evalute_statement q (.groupByStatement t fs) =
        .ok { q with select := some (Stmt.string (.groupByStatement t fs)) }) ∧
    (∀ (q : Query) (t : Token) (e : Expr),
      Query.evalute_statement q (.whereStatement t e) =
        .ok { q with where_clause := some (Stmt.string (.whereStatement t e)) }) ∧
    (∀ (q : Query) (t : Token) (os : List OrderByOptionLiteral),
      Query.evalute_statement q (.orderByStatement t os) =
        .ok { q with orderby := some (Stmt.string (.orderByStatement t os)) }) ∧
    (∀ (q : Query) (t : Token) (l : IntegerLiteral),
      Query.evalute_statement q (.limitStatement t l) =
        .ok { q with limit := some (Stmt.string (.limitStatement t l)) }) ∧
    (∀ (q : Query) (t : Token),
      Query.evalute_statement q (.openStatement t) = .ok { q with open_browser := true }) ∧
    (∀ (q q1 : Query) (s1 s2 : Stmt), s1.node_type = s2.node_type →
      Query.evalute_statement q s1 = .ok q1 →
      Query.evalute_statement q1 s2 = Query.evalute_statement q s2) := by
  refine ⟨fun q1 t1 a1 => rfl, fun q2 t2 a2 => rfl, fun q3 t3 a3 => rfl,
    fun q4 t4 a4 => rfl, fun q5 t5 a5 => rfl, fun q6 t6 a6 => rfl,
    fun q7 t7 => rfl, ?_⟩
  intro q q1 s1 s2 hk h1
  cases s1 <;> cases s2 <;>
    first
      | (simp only [Query.evalute_statement, Stmt.node_type, Except.ok.injEq] at h1
         subst h1
         rfl)
      | (simp [Stmt.node_type] at hk)

/-- C8 witness: two where statements in sequence; the later one overwrites. -/
theorem c8_witness :
    Query.evalute_statement ⟨none, "", some "where(1)", none, none, false⟩
        (.whereStatement (Token.new .whereKw "where")
          (.value (Token.new .integer "2") "2")) =
      Query.evalute_statement Query.default
        (.whereStatement (Token.new .whereKw "where")
          (.value (Token.new .integer "2") "2")) :=
  c8_theorem.2.2.2.2.2.2.2 Query.default ⟨none, "", some "where(1)", none, none, false⟩
    (.whereStatement (Token.new .whereKw "where") (.value (Token.new .integer "1") "1"))
    (.whereStatement (Token.new .whereKw "where") (.value (Token.new .integer "2") "2"))
    rfl rfl

/-- C9 counterexample: the where-expression parsed from "Id = -1" is
syntactically valid and renders as "Id = (-1)", but re-tokenizing and
re-parsing that rendering fails (the value grammar cannot read the
parenthesized sign prefix), so the round trip is not render-identical. -/
theorem c9_counterexample :
    parsed_where_expr_string "Account.where(Id = -1)" = some "Id = (-1)" ∧
    reparse_where_expr "Id = (-1)" = none := ⟨rfl, rfl⟩

/-- C10 counterexample: on the input "a..select(b)" the tokenizer returns a
sequence in which a dot token immediately precedes the select method
keyword, because the pop only removes the directly preceding dot. -/
theorem c10_counterexample :
    tokenize "a..select(b)" =
      .done [Token.new .identifire "a", Token.new .dot ".", Token.new .select "select",
        Token.new .lparen "(", Token.new .identifire "b", Token.new .rparen ")",
        Token.new .eof ""] ∧
    ¬ no_dot_method_pair
      [Token.new .identifire "a", Token.new .dot ".", Token.new .select "select",
        Token.new .lparen "(", Token.new .identifire "b", Token.new .rparen ")",
        Token.new .eof ""] := by
  refine ⟨rfl, fun h => ?_⟩
  unfold no_dot_method_pair at h
  have hpair := (List.chain'_cons.mp (List.chain'_cons.mp h).2).1
  simp [Token.is_dot, Token.is_query_method, Token.new] at hpair

end Soql

namespace Soql

/-! ## Where-expression step lemmas -/

theorem parse_condition_simple (fuel : Nat) (cur ftok op vt : Token) (rest : List Token)
    (_hf : ftok.kind = .identifire) (hop : op.is_operator = true)
    (hv : vt.kind = .integer ∨ vt.kind = .stringObject) :
    parse_condition (fuel + 1) ⟨ftok :: op :: vt :: rest, cur⟩ =
      .ok (.condition ftok ⟨ftok, ftok.literal⟩ ⟨op, op.literal⟩ (.value vt vt.literal))
        ⟨rest, vt⟩ := by
  have hdot := is_operator_kind_ne_dot op hop
  clear _hf
  rcases hv with hv | hv <;>
    simp [parse_condition, Parser.next_token, parse_field, parse_operator_literal,
      parse_value, Parser.peek_token, Parser.peek_token_is, Parser.advance, PRes.pass,
      hop, hdot, hv]

theorem parse_condition_dotted (fuel : Nat) (cur a dt b op vt : Token) (rest : List Token)
    (hdt : dt.kind = .dot) (hb : b.kind = .identifire)
    (hop : op.is_operator = true)
    (hv : vt.kind = .integer ∨ vt.kind = .stringObject) :
    parse_condition (fuel + 1) ⟨a :: dt :: b :: op :: vt :: rest, cur⟩ =
      .ok (.condition a ⟨a, a.literal ++ "." ++ b.literal⟩ ⟨op, op.literal⟩
          (.value vt vt.literal)) ⟨rest, vt⟩ := by
  have hdot := is_operator_kind_ne_dot op hop
  rcases hv with hv | hv <;>
    simp [parse_condition, Parser.next_token, parse_field, parse_operator_literal,
      parse_value, Parser.peek_token, Parser.peek_token_is, Parser.advance, PRes.pass,
      Parser.expect_peek, hdt, hb, hop, hdot, hv]

theorem pwe_start_ident (fuel : Nat) (t : Token) (ts : List Token) (cur : Token)
    (hk : t.kind = .identifire) :
    parse_where_expressions (fuel + 1) .start ⟨t :: ts, cur⟩ =
      (parse_condition fuel ⟨t :: ts, cur⟩).pass fun e s1 =>
        parse_where_expressions fuel (.loopMode e) s1 := by
  simp only [parse_where_expressions, Parser.peek_token, List.head?, hk]

theorem pwe_start_lparen (fuel : Nat) (t : Token) (ts : List Token) (cur : Token)
    (hk : t.kind = .lparen) :
    parse_where_expressions (fuel + 1) .start ⟨t :: ts, cur⟩ =
      (parse_where_expressions fuel .start ⟨ts, t⟩).pass fun e s2 =>
      (s2.expect_peek .rparen).pass fun _ s3 =>
        parse_where_expressions fuel (.loopMode e) s3 := by
  simp only [parse_where_expressions, Parser.peek_token, Parser.advance, List.head?, hk]

theorem pwe_loop_op (fuel : Nat) (left : Expr) (t : Token) (ts : List Token) (cur : Token)
    (hk : t.kind = .andKw ∨ t.kind = .orKw) :
    parse_where_expressions (fuel + 1) (.loopMode left) ⟨t :: ts, cur⟩ =
      (parse_where_expressions fuel .start ⟨ts, t⟩).pass fun right s2 =>
        parse_where_expressions fuel
          (.loopMode (.infixExpression t left t.literal right)) s2 := by
  rcases hk with hk | hk <;>
    simp only [parse_where_expressions, Parser.peek_token, Parser.next_token,
      List.head?, hk]

theorem pwe_loop_rparen (fuel : Nat) (left : Expr) (t : Token) (ts : List Token)
    (cur : Token) (h : t.kind = .rparen) :
    parse_where_expressions (fuel + 1) (.loopMode left) ⟨t :: ts, cur⟩ =
      .ok left ⟨t :: ts, cur⟩ := by
  simp [parse_where_expressions, Parser.peek_token, h]

theorem pwe_loop_eof (fuel : Nat) (left : Expr) (t : Token) (ts : List Token)
    (cur : Token) (h : t.kind = .eof) :
    parse_where_expressions (fuel + 1) (.loopMode left) ⟨t :: ts, cur⟩ =
      .ok left ⟨t :: ts, cur⟩ := by
  simp [parse_where_expressions, Parser.peek_token, h]

theorem pwe_chain (ops : List (Token × WCond)) :
    ∀ (c : WCond) (fuel : Nat) (cur : Token), c.ok →
    (∀ p ∈ ops, (p.1.kind = .andKw ∨ p.1.kind = .orKw) ∧ WCond.ok p.2) →
    3 * ops.length + 3 ≤ fuel →
    parse_where_expressions fuel .start ⟨chainTokens c ops ++ [Token.new .eof ""], cur⟩ =
      .ok (chainExpr c ops) ⟨[Token.new .eof ""], chainLastVal c ops⟩ := by
  induction ops with
  | nil =>
    intro c fuel cur hc _ hfuel
    obtain ⟨f, rfl⟩ : ∃ f, fuel = f + 2 := ⟨fuel - 2, by omega⟩
    rcases hc with ⟨hop, hv⟩
    simp only [chainTokens, condTokens, List.cons_append, List.nil_append]
    rw [show f + 2 = f + 1 + 1 from rfl,
      pwe_start_ident (f + 1) (Token.new .identifire c.field) _ cur rfl,
      parse_condition_simple f cur (Token.new .identifire c.field) c.op c.val
        [Token.new .eof ""] rfl hop hv]
    simp only [PRes.pass]
    rw [pwe_loop_eof f _ (Token.new .eof "") [] c.val rfl]
    rfl
  | cons p rest ih =>
    intro c fuel cur hc hops hfuel
    obtain ⟨op, c2⟩ := p
    obtain ⟨f, rfl⟩ : ∃ f, fuel = f + 2 := ⟨fuel - 2, by omega⟩
    rcases hc with ⟨hop, hv⟩
    have hoplog := (hops (op, c2) (by simp)).1
    have hc2 := (hops (op, c2) (by simp)).2
    simp only [chainTokens, condTokens, List.cons_append, List.nil_append,
      List.append_assoc]
    rw [show f + 2 = f + 1 + 1 from rfl,
      pwe_start_ident (f + 1) (Token.new .identifire c.field) _ cur rfl,
      parse_condition_simple f cur (Token.new .identifire c.field) c.op c.val
        (op :: (chainTokens c2 rest ++ [Token.new .eof ""])) rfl hop hv]
    simp only [PRes.pass]
    rw [pwe_loop_op f _ op _ c.val hoplog,
      ih c2 f op hc2 (fun q hq => hops q (by simp [hq])) (by simp at hfuel ⊢; omega)]
    simp only [PRes.pass]
    obtain ⟨k, rfl⟩ : ∃ k, f = k + 1 := ⟨f - 1, by simp at hfuel; omega⟩
    rw [pwe_loop_eof k _ (Token.new .eof "") [] _ rfl]
    rfl

end Soql

namespace Soql

/-- C2: for every chain of well-formed conditions joined by AND/OR tokens,
parse_where_expressions builds the right-nested tree in which each operator
takes the parse of the entire remainder as its right operand, with no
precedence distinction between AND and OR; and the where clause of the
claimed Opportunity example renders exactly as claimed. -/
theorem c2_theorem :
    (∀ (c : WCond) (ops : List (Token × WCond)) (fuel : Nat) (cur : Token), c.ok →
      (∀ p ∈ ops, (p.1.kind = .andKw ∨ p.1.kind = .orKw) ∧ WCond.ok p.2) →
      3 * ops.length + 3 ≤ fuel →
      parse_where_expressions fuel .start
          ⟨chainTokens c ops ++ [Token.new .eof ""], cur⟩ =
        .ok (chainExpr c ops) ⟨[Token.new .eof ""], chainLastVal c ops⟩) ∧
    parsed_where_expr_string
        ("Opportunity.where(Id = 123 AND (Name = " ++ squote ++ "test" ++ squote ++
          " OR Account.Name LIKE " ++ squote ++ "%test%" ++ squote ++
          ") AND Status = " ++ squote ++ "Closed" ++ squote ++ ")") =
      some ("(Id = 123 AND ((Name = " ++ squote ++ "test" ++ squote ++
        " OR Account.Name LIKE " ++ squote ++ "%test%" ++ squote ++
        ") AND Status = " ++ squote ++ "Closed" ++ squote ++ "))") :=
  ⟨fun c ops fuel cur hc hops hfuel => pwe_chain ops c fuel cur hc hops hfuel, rfl⟩

/-- C2 witness: the chain A = 1 AND B = 2 OR C = 3 parses right-nested. -/
theorem c2_witness :
    parse_where_expressions 9 .start
        ⟨chainTokens ⟨"A", Token.new .eq "=", Token.new .integer "1"⟩
            [(Token.new .andKw "AND", ⟨"B", Token.new .eq "=", Token.new .integer "2"⟩),
             (Token.new .orKw "OR", ⟨"C", Token.new .eq "=", Token.new .integer "3"⟩)] ++
          [Token.new .eof ""], Token.new .illegal ""⟩ =
      .ok (chainExpr ⟨"A", Token.new .eq "=", Token.new .integer "1"⟩
            [(Token.new .andKw "AND", ⟨"B", Token.new .eq "=", Token.new .integer "2"⟩),
             (Token.new .orKw "OR", ⟨"C", Token.new .eq "=", Token.new .integer "3"⟩)])
        ⟨[Token.new .eof ""], chainLastVal ⟨"A", Token.new .eq "=", Token.new .integer "1"⟩
            [(Token.new .andKw "AND", ⟨"B", Token.new .eq "=", Token.new .integer "2"⟩),
             (Token.new .orKw "OR", ⟨"C", Token.new .eq "=", Token.new .integer "3"⟩)]⟩ :=
  c2_theorem.1 ⟨"A", Token.new .eq "=", Token.new .integer "1"⟩
    [(Token.new .andKw "AND", ⟨"B", Token.new .eq "=", Token.new .integer "2"⟩),
     (Token.new .orKw "OR", ⟨"C", Token.new .eq "=", Token.new .integer "3"⟩)]
    9 (Token.new .illegal "") (by decide) (by decide) (by decide)

end Soql

namespace Soql

/-! ## Lexer dot invariant lemmas -/

theorem query_method_not_dot (t : Token) (h : t.is_query_method = true) :
    t.is_dot = false := by
  unfold Token.is_query_method at h
  unfold Token.is_dot
  cases hk : t.kind <;> simp [hk] at h ⊢

theorem search_keywords_not_dot (s : String) : (search_keywords s).is_dot = false := by
  unfold search_keywords
  split <;> rfl

theorem ends_with_dot_append (acc : List Token) (t : Token) :
    ends_with_dot (acc ++ [t]) = t.is_dot := by
  simp [ends_with_dot, List.getLast?_concat]

theorem inv_push_plain (acc : List Token) (tok : Token)
    (h1 : no_dot_method_pair acc) (h2 : no_dot_dot_pair acc)
    (hm : tok.is_query_method = false) (hd : tok.is_dot = false) :
    no_dot_method_pair (acc ++ [tok]) ∧ no_dot_dot_pair (acc ++ [tok]) ∧
      ends_with_dot (acc ++ [tok]) = false := by
  refine ⟨?_, ?_, by simp [ends_with_dot_append, hd]⟩
  · unfold no_dot_method_pair at h1 ⊢
    rw [List.chain'_append]
    refine ⟨h1, List.chain'_singleton _, ?_⟩
    intro x _ y hy
    simp only [List.head?] at hy
    cases hy
    simp [hm]
  · unfold no_dot_dot_pair at h2 ⊢
    rw [List.chain'_append]
    refine ⟨h2, List.chain'_singleton _, ?_⟩
    intro x _ y hy
    simp only [List.head?] at hy
    cases hy
    simp [hd]

theorem inv_push_dot (acc : List Token) (tok : Token)
    (h1 : no_dot_method_pair acc) (h2 : no_dot_dot_pair acc)
    (hend : ends_with_dot acc = false)
    (hm : tok.is_query_method = false) :
    no_dot_method_pair (acc ++ [tok]) ∧ no_dot_dot_pair (acc ++ [tok]) ∧
      ends_with_dot (acc ++ [tok]) = tok.is_dot := by
  refine ⟨?_, ?_, by simp [ends_with_dot_append]⟩
  · unfold no_dot_method_pair at h1 ⊢
    rw [List.chain'_append]
    refine ⟨h1, List.chain'_singleton _, ?_⟩
    intro x _ y hy
    simp only [List.head?] at hy
    cases hy
    simp [hm]
  · unfold no_dot_dot_pair at h2 ⊢
    rw [List.chain'_append]
    refine ⟨h2, List.chain'_singleton _, ?_⟩
    intro x hx y hy
    simp only [List.head?] at hy
    cases hy
    unfold ends_with_dot at hend
    rw [hx] at hend
    simp only [] at hend
    simp [hend]

theorem inv_pop_method (acc : List Token) (prev tok : Token)
    (hl : acc.getLast? = some prev) (hp : prev.is_dot = true)
    (h1 : no_dot_method_pair acc) (h2 : no_dot_dot_pair acc)
    (hd : tok.is_dot = false) :
    no_dot_method_pair (acc.dropLast ++ [tok]) ∧ no_dot_dot_pair (acc.dropLast ++ [tok]) ∧
      ends_with_dot (acc.dropLast ++ [tok]) = false := by
  rcases List.eq_nil_or_concat' acc with rfl | ⟨u, x, rfl⟩
  · simp at hl
  · rw [List.getLast?_concat] at hl
    cases hl
    rw [List.dropLast_concat]
    simp only [no_dot_method_pair, no_dot_dot_pair] at h1 h2 ⊢
    rw [List.chain'_append] at h1 h2
    have hu : ∀ y ∈ u.getLast?, y.is_dot = false := by
      intro y hy
      have := h2.2.2 y hy prev (by simp [List.head?])
      by_contra hyd
      exact this ⟨by simpa using hyd, hp⟩
    refine ⟨?_, ?_, by simp [ends_with_dot_append, hd]⟩
    · rw [List.chain'_append]
      refine ⟨h1.1, List.chain'_singleton _, ?_⟩
      intro y hy z hz
      simp only [List.head?] at hz
      cases hz
      intro hcontra
      rw [hu y hy] at hcontra
      exact absurd hcontra.1 (by simp)
    · rw [List.chain'_append]
      refine ⟨h2.1, List.chain'_singleton _, ?_⟩
      intro y hy z hz
      simp only [List.head?] at hz
      cases hz
      intro hcontra
      rw [hu y hy] at hcontra
      exact absurd hcontra.1 (by simp)

end Soql

namespace Soql

theorem ndd_b_iff : ∀ ts : List Token, no_dot_dot_b ts = true ↔ no_dot_dot_pair ts := by
  intro ts
  induction ts with
  | nil => simp [no_dot_dot_b, no_dot_dot_pair]
  | cons a rest ih =>
    cases rest with
    | nil => simp [no_dot_dot_b, no_dot_dot_pair]
    | cons b rest2 =>
      rw [no_dot_dot_b, no_dot_dot_pair, List.chain'_cons]
      rw [no_dot_dot_pair] at ih
      simp only [Bool.and_eq_true, ih, Bool.not_eq_true', Bool.and_eq_false_iff]
      constructor
      · rintro ⟨hab, hc⟩
        refine ⟨?_, hc⟩
        rintro ⟨ha, hb⟩
        rcases hab with h | h
        · rw [ha] at h; cases h
        · rw [hb] at h; cases h
      · rintro ⟨hab, hc⟩
        refine ⟨?_, hc⟩
        by_cases ha : a.is_dot = true
        · by_cases hb : b.is_dot = true
          · exact absurd ⟨ha, hb⟩ hab
          · right; revert hb; cases b.is_dot <;> simp
        · left; revert ha; cases a.is_dot <;> simp

theorem ndm_append_nonmethod (acc : List Token) (t : Token)
    (h1 : no_dot_method_pair acc) (hm : t.is_query_method = false) :
    no_dot_method_pair (acc ++ [t]) := by
  unfold no_dot_method_pair at h1 ⊢
  rw [List.chain'_append]
  refine ⟨h1, List.chain'_singleton _, ?_⟩
  intro x _ y hy
  simp only [List.head?] at hy
  cases hy
  simp [hm]

theorem ndm_pop_method (acc : List Token) (prev tok : Token)
    (hl : acc.getLast? = some prev) (hp : prev.is_dot = true)
    (h1 : no_dot_method_pair acc) (h2 : no_dot_dot_pair acc) :
    no_dot_method_pair (acc.dropLast ++ [tok]) := by
  rcases List.eq_nil_or_concat' acc with rfl | ⟨u, x, rfl⟩
  · simp at hl
  · rw [List.getLast?_concat] at hl
    cases hl
    rw [List.dropLast_concat]
    simp only [no_dot_method_pair, no_dot_dot_pair] at h1 h2 ⊢
    rw [List.chain'_append] at h1 h2
    have hu : ∀ y ∈ u.getLast?, y.is_dot = false := by
      intro y hy
      have := h2.2.2 y hy prev (by simp [List.head?])
      by_contra hyd
      exact this ⟨by simpa using hyd, hp⟩
    rw [List.chain'_append]
    refine ⟨h1.1, List.chain'_singleton _, ?_⟩
    intro y hy z hz
    simp only [List.head?] at hz
    cases hz
    intro hcontra
    rw [hu y hy] at hcontra
    exact absurd hcontra.1 (by simp)

theorem lex_step_ndm (c : Char) (input : List Char) (tokens : List Token)
    (rest : List Char) (tokens2 : List Token)
    (hstep : lexStep c input tokens = some (rest, tokens2))
    (h1 : no_dot_method_pair tokens) (h2 : no_dot_dot_pair tokens) :
    no_dot_method_pair tokens2 := by
  unfold lexStep at hstep
  by_cases hws : c.isWhitespace = true
  · simp only [hws, if_true, Option.some.injEq, Prod.mk.injEq] at hstep
    obtain ⟨-, rfl⟩ := hstep
    exact h1
  simp only [hws, if_false, Bool.false_eq_true] at hstep
  by_cases hceq : c = '='
  · simp only [hceq, if_true, Option.some.injEq, Prod.mk.injEq] at hstep
    obtain ⟨-, rfl⟩ := hstep
    exact ndm_append_nonmethod tokens _ h1 rfl
  simp only [hceq, if_false] at hstep
  by_cases hcpl : c = '+'
  · simp only [hcpl, if_true, Option.some.injEq, Prod.mk.injEq] at hstep
    obtain ⟨-, rfl⟩ := hstep
    exact ndm_append_nonmethod tokens _ h1 rfl
  simp only [hcpl, if_false] at hstep
  by_cases hcmi : c = '-'
  · simp only [hcmi, if_true, Option.some.injEq, Prod.mk.injEq] at hstep
    obtain ⟨-, rfl⟩ := hstep
    exact ndm_append_nonmethod tokens _ h1 rfl
  simp only [hcmi, if_false] at hstep
  by_cases hcgt : c = '>'
  · simp only [hcgt, if_true] at hstep
    rcases input with _ | ⟨c2, irest⟩
    · simp only [Option.some.injEq, Prod.mk.injEq] at hstep
      obtain ⟨-, rfl⟩ := hstep
      exact ndm_append_nonmethod tokens _ h1 rfl
    by_cases hc2 : c2 = '='
    · simp only [hc2, Option.some.injEq, Prod.mk.injEq] at hstep
      obtain ⟨-, rfl⟩ := hstep
      exact ndm_append_nonmethod tokens _ h1 rfl
    · simp [hc2] at hstep
      obtain ⟨-, rfl⟩ := hstep
      exact ndm_append_nonmethod tokens _ h1 rfl
  simp only [hcgt, if_false] at hstep
  by_cases hclt : c = '<'
  · simp only [hclt, if_true] at hstep
    rcases input with _ | ⟨c2, irest⟩
    · simp only [Option.some.injEq, Prod.mk.injEq] at hstep
      obtain ⟨-, rfl⟩ := hstep
      exact ndm_append_nonmethod tokens _ h1 rfl
    by_cases hc2 : c2 = '='
    · simp only [hc2, Option.some.injEq, Prod.mk.injEq] at hstep
      obtain ⟨-, rfl⟩ := hstep
      exact ndm_append_nonmethod tokens _ h1 rfl
    · simp [hc2] at hstep
      obtain ⟨-, rfl⟩ := hstep
      exact ndm_append_nonmethod tokens _ h1 rfl
  simp only [hclt, if_false] at hstep
  by_cases hcco : c = ','
  · simp only [hcco, if_true, Option.some.injEq, Prod.mk.injEq] at hstep
    obtain ⟨-, rfl⟩ := hstep
    exact ndm_append_nonmethod tokens _ h1 rfl
  simp only [hcco, if_false] at hstep
  by_cases hcdo : c = '.'
  · simp only [hcdo, if_true, Option.some.injEq, Prod.mk.injEq] at hstep
    obtain ⟨-, rfl⟩ := hstep
    exact ndm_append_nonmethod tokens _ h1 rfl
  simp only [hcdo, if_false] at hstep
  by_cases hclp : c = '('
  · simp only [hclp, if_true, Option.some.injEq, Prod.mk.injEq] at hstep
    obtain ⟨-, rfl⟩ := hstep
    exact ndm_append_nonmethod tokens _ h1 rfl
  simp only [hclp, if_false] at hstep
  by_cases hcrp : c = ')'
  · simp only [hcrp, if_true, Option.some.injEq, Prod.mk.injEq] at hstep
    obtain ⟨-, rfl⟩ := hstep
    exact ndm_append_nonmethod tokens _ h1 rfl
  simp only [hcrp, if_false] at hstep
  by_cases hcbang : c = '!'
  · simp only [hcbang, if_true] at hstep
    rcases input with _ | ⟨c2, irest⟩
    · simp only [Option.some.injEq, Prod.mk.injEq] at hstep
      obtain ⟨-, rfl⟩ := hstep
      exact ndm_append_nonmethod tokens _ h1 rfl
    by_cases hc2 : c2 = '='
    · simp only [hc2, Option.some.injEq, Prod.mk.injEq] at hstep
      obtain ⟨-, rfl⟩ := hstep
      exact ndm_append_nonmethod tokens _ h1 rfl
    · simp [hc2] at hstep
      obtain ⟨-, rfl⟩ := hstep
      exact ndm_append_nonmethod tokens _ h1 rfl
  simp only [hcbang, if_false] at hstep
  by_cases hcq : c = quoteChar
  · simp only [hcq, if_true, Option.some.injEq, Prod.mk.injEq] at hstep
    obtain ⟨-, rfl⟩ := hstep
    exact ndm_append_nonmethod tokens _ h1 rfl
  simp only [hcq, if_false] at hstep
  by_cases hcd : c.isDigit = true
  · simp only [hcd, if_true, Option.some.injEq, Prod.mk.injEq] at hstep
    obtain ⟨-, rfl⟩ := hstep
    exact ndm_append_nonmethod tokens _ h1 rfl
  simp only [hcd, if_false, Bool.false_eq_true] at hstep
  by_cases hcl : is_literal c = true
  · simp only [hcl, if_true] at hstep
    by_cases hm : (search_keywords (consume_literal input c).1).is_query_method = true
    · simp only [hm, if_true] at hstep
      cases hl : tokens.getLast? with
      | none => simp [hl] at hstep
      | some prev =>
        simp only [hl] at hstep
        by_cases hpd : prev.is_dot = true
        · simp only [hpd, if_true, Option.some.injEq, Prod.mk.injEq] at hstep
          obtain ⟨-, rfl⟩ := hstep
          exact ndm_pop_method tokens prev _ hl hpd h1 h2
        · simp [hpd] at hstep
    · simp only [hm, if_false, Bool.false_eq_true, Option.some.injEq, Prod.mk.injEq] at hstep
      obtain ⟨-, rfl⟩ := hstep
      refine ndm_append_nonmethod tokens _ h1 ?_
      revert hm
      cases (search_keywords (consume_literal input c).1).is_query_method <;> simp
  simp only [hcl, if_false, Bool.false_eq_true, Option.some.injEq, Prod.mk.injEq] at hstep
  obtain ⟨-, rfl⟩ := hstep
  exact ndm_append_nonmethod tokens _ h1 rfl

theorem lex_no_dot_method (fuel : Nat) :
    ∀ (cs : List Char) (acc ts : List Token),
    lexChars fuel cs acc = .done ts →
    dot_safe_chars fuel cs acc = true →
    no_dot_method_pair acc → no_dot_dot_pair acc →
    no_dot_method_pair ts := by
  induction fuel with
  | zero =>
    intro cs acc ts hlex _ h1 _
    cases cs with
    | nil =>
      simp only [lexChars, LexResult.done.injEq] at hlex
      subst hlex
      exact ndm_append_nonmethod acc _ h1 rfl
    | cons c input => simp [lexChars] at hlex
  | succ f ih =>
    intro cs acc ts hlex hsafe h1 h2
    cases cs with
    | nil =>
      simp only [lexChars, LexResult.done.injEq] at hlex
      subst hlex
      exact ndm_append_nonmethod acc _ h1 rfl
    | cons c input =>
      simp only [lexChars] at hlex
      simp only [dot_safe_chars] at hsafe
      cases hstep : lexStep c input acc with
      | none => rw [hstep] at hlex; simp at hlex
      | some p =>
        obtain ⟨rest, acc2⟩ := p
        rw [hstep] at hlex hsafe
        simp only [Bool.and_eq_true] at hsafe
        obtain ⟨hndd2, hsafe⟩ := hsafe
        exact ih rest acc2 ts hlex hsafe
          (lex_step_ndm c input acc rest acc2 hstep h1 h2)
          ((ndd_b_iff acc2).mp hndd2)

end Soql

namespace Soql

/-- C10 amended: when the tokenizer emits a method-keyword token it pops the
immediately preceding token (aborting unless it is a dot) and does not push
it back, so the separating dot is removed before parsing; consequently no
dot token immediately precedes a method-keyword token in any returned
sequence from an input whose emitted tokens never carry two consecutive
dots (the dot_safe_chars condition; with consecutive dots, as in
"a..select(b)", a dot can survive directly before a method keyword).  The
parser dispatches on each method keyword directly, with no preceding-dot
requirement. -/
theorem c10_theorem :
    (∀ (input : String) (ts : List Token),
      tokenize input = .done ts →
      dot_safe_chars (input.data.length + 1) input.data [] = true →
      no_dot_method_pair ts) ∧
    tokenize "Account.limit(3)" =
      .done [Token.new .identifire "Account", Token.new .limit "limit",
        Token.new .lparen "(", Token.new .integer "3", Token.new .rparen ")",
        Token.new .eof ""] ∧
    (∀ (fuel : Nat) (s : Parser) (t : Token), s.peek_token = some t →
      (t.kind = .select → parse_statement fuel s = parse_select_groupby_statement fuel s) ∧
      (t.kind = .groupby → parse_statement fuel s = parse_select_groupby_statement fuel s) ∧
      (t.kind = .whereKw → parse_statement fuel s = parse_where_statement fuel s) ∧
      (t.kind = .orderby → parse_statement fuel s = parse_orderby_statement fuel s) ∧
      (t.kind = .limit → parse_statement fuel s = parse_limit_statement s) ∧
      (t.kind = .openKw → parse_statement fuel s = parse_open_statement s)) := by
  refine ⟨?_, rfl, ?_⟩
  · intro input ts hlex hsafe
    exact lex_no_dot_method (input.data.length + 1) input.data [] ts hlex hsafe
      List.chain'_nil List.chain'_nil
  · intro fuel s t hp
    refine ⟨fun hk => ?_, fun hk => ?_, fun hk => ?_, fun hk => ?_, fun hk => ?_,
      fun hk => ?_⟩ <;>
      simp [parse_statement, hp, hk]

/-- C10 witness: the dot-separated input "Account.limit(3)" satisfies the
dot-safety condition and its token sequence has no dot before a method
keyword (the separating dot was removed). -/
theorem c10_witness :
    no_dot_method_pair [Token.new .identifire "Account", Token.new .limit "limit",
      Token.new .lparen "(", Token.new .integer "3", Token.new .rparen ")",
      Token.new .eof ""] :=
  c10_theorem.1 "Account.limit(3)"
    [Token.new .identifire "Account", Token.new .limit "limit",
      Token.new .lparen "(", Token.new .integer "3", Token.new .rparen ")",
      Token.new .eof ""] rfl rfl

end Soql

namespace Soql

/-! ## Character-class facts for the lexer round trip -/

theorem is_literal_facts (c : Char) (h : is_literal c = true) :
    c.isWhitespace = false ∧ ¬c = '=' ∧ ¬c = '+' ∧ ¬c = '-' ∧ ¬c = '>' ∧ ¬c = '<' ∧
    ¬c = ',' ∧ ¬c = '.' ∧ ¬c = '(' ∧ ¬c = ')' ∧ ¬c = '!' ∧ ¬c = quoteChar ∧
    c.isDigit = false := by
  simp only [is_literal, Bool.or_eq_true, decide_eq_true_eq] at h
  rcases h with h | h
  · simp [Char.isAlpha, Char.isUpper, Char.isLower] at h
    have hdig : c.isDigit = false := by
      rcases Bool.eq_false_or_eq_true c.isDigit with hd | hd
      · simp [Char.isDigit] at hd
        rcases h with ⟨h1, h2⟩ | ⟨h1, h2⟩ <;>
          · have hdn : c.val.toNat ≤ 57 := hd.2
            first
              | (have h1n : (65 : Nat) ≤ c.val.toNat := h1; omega)
              | (have h1n : (97 : Nat) ≤ c.val.toNat := h1; omega)
      · exact hd
    have hws : c.isWhitespace = false := by
      simp only [Char.isWhitespace, Bool.or_eq_false_iff, decide_eq_false_iff_not]
      rcases h with ⟨h1, h2⟩ | ⟨h1, h2⟩ <;>
        exact ⟨⟨⟨fun heq => absurd h1 (by subst heq; decide),
                 fun heq => absurd h1 (by subst heq; decide)⟩,
                fun heq => absurd h1 (by subst heq; decide)⟩,
               fun heq => absurd h1 (by subst heq; decide)⟩
    refine ⟨hws, ?_, ?_, ?_, ?_, ?_, ?_, ?_, ?_, ?_, ?_, ?_, hdig⟩ <;>
      (rcases h with ⟨h1, h2⟩ | ⟨h1, h2⟩ <;>
        exact fun heq => absurd h1 (by subst heq; decide))
  · subst h
    exact (by decide)

theorem isDigit_facts (c : Char) (h : c.isDigit = true) :
    c.isWhitespace = false ∧ ¬c = '=' ∧ ¬c = '+' ∧ ¬c = '-' ∧ ¬c = '>' ∧ ¬c = '<' ∧
    ¬c = ',' ∧ ¬c = '.' ∧ ¬c = '(' ∧ ¬c = ')' ∧ ¬c = '!' ∧ ¬c = quoteChar := by
  simp [Char.isDigit] at h
  obtain ⟨h1, h2⟩ := h
  have hws : c.isWhitespace = false := by
    simp only [Char.isWhitespace, Bool.or_eq_false_iff, decide_eq_false_iff_not]
    exact ⟨⟨⟨fun heq => absurd h1 (by subst heq; decide),
             fun heq => absurd h1 (by subst heq; decide)⟩,
            fun heq => absurd h1 (by subst heq; decide)⟩,
           fun heq => absurd h1 (by subst heq; decide)⟩
  refine ⟨hws, ?_, ?_, ?_, ?_, ?_, ?_, ?_, ?_, ?_, ?_, ?_⟩ <;>
    first
      | exact fun heq => absurd h1 (by subst heq; decide)
      | exact fun heq => absurd h2 (by subst heq; decide)

theorem takeWhile_all_append {α : Type} (p : α → Bool) (l r : List α)
    (h : ∀ x ∈ l, p x = true) :
    (l ++ r).takeWhile p = l ++ r.takeWhile p ∧ (l ++ r).dropWhile p = r.dropWhile p := by
  induction l with
  | nil => simp
  | cons a l ih =>
    have ha := h a (by simp)
    have ih2 := ih (fun x hx => h x (by simp [hx]))
    simp [List.takeWhile_cons, List.dropWhile_cons, ha, ih2.1, ih2.2]

theorem sep_after_facts (cs : List Char) (h : sep_after cs = true) :
    cs.takeWhile is_literal_or_digit = [] ∧ cs.dropWhile is_literal_or_digit = cs ∧
    cs.takeWhile Char.isDigit = [] ∧ cs.dropWhile Char.isDigit = cs := by
  cases cs with
  | nil => simp
  | cons c rest =>
    simp only [sep_after, Bool.or_eq_true, decide_eq_true_eq] at h
    rcases h with rfl | rfl
    · simp [List.takeWhile_cons, List.dropWhile_cons,
        show is_literal_or_digit ' ' = false by decide,
        show Char.isDigit ' ' = false by decide]
    · simp [List.takeWhile_cons, List.dropWhile_cons,
        show is_literal_or_digit ')' = false by decide,
        show Char.isDigit ')' = false by decide]

theorem not_ident_glue_facts (cs : List Char) (h : not_ident_glue cs = true) :
    cs.takeWhile is_literal_or_digit = [] ∧ cs.dropWhile is_literal_or_digit = cs := by
  cases cs with
  | nil => simp
  | cons c rest =>
    simp only [not_ident_glue, Bool.not_eq_true'] at h
    simp [List.takeWhile_cons, List.dropWhile_cons, h]

theorem sep_after_not_ident_glue (cs : List Char) (h : sep_after cs = true) :
    not_ident_glue cs = true := by
  cases cs with
  | nil => rfl
  | cons c rest =>
    simp only [sep_after, Bool.or_eq_true, decide_eq_true_eq] at h
    rcases h with rfl | rfl
    · simp [not_ident_glue, show is_literal_or_digit ' ' = false by decide]
    · simp [not_ident_glue, show is_literal_or_digit ')' = false by decide]

end Soql

namespace Soql

/-! ## Single lexer iterations on rendered fragments -/

theorem search_keywords_literal (s : String) : (search_keywords s).literal = s := by
  unfold search_keywords
  split <;> rfl

theorem lexDone_step (c : Char) (cs rest : List Char) (acc acc2 ts : List Token)
    (hstep : lexStep c cs acc = some (rest, acc2)) (h : LexDone rest acc2 ts) :
    LexDone (c :: cs) acc ts := by
  obtain ⟨f, hf⟩ := h
  refine ⟨f + 1, ?_⟩
  simp only [lexChars, hstep]
  exact hf

theorem lexStep_space (cs : List Char) (acc : List Token) :
    lexStep ' ' cs acc = some (cs, acc) := rfl

theorem lexStep_eq_char (cs : List Char) (acc : List Token) :
    lexStep '=' cs acc = some (cs, acc ++ [Token.new .eq "="]) := rfl

theorem lexStep_lparen (cs : List Char) (acc : List Token) :
    lexStep '(' cs acc = some (cs, acc ++ [Token.new .lparen "("]) := rfl

theorem lexStep_rparen (cs : List Char) (acc : List Token) :
    lexStep ')' cs acc = some (cs, acc ++ [Token.new .rparen ")"]) := rfl

theorem lexStep_dot (cs : List Char) (acc : List Token) :
    lexStep '.' cs acc = some (cs, acc ++ [Token.new .dot "."]) := rfl

theorem lexStep_gt_space (cs : List Char) (acc : List Token) :
    lexStep '>' (' ' :: cs) acc = some (' ' :: cs, acc ++ [Token.new .greater ">"]) := rfl

theorem lexStep_ge (cs : List Char) (acc : List Token) :
    lexStep '>' ('=' :: cs) acc = some (cs, acc ++ [Token.new .greaterEq ">="]) := rfl

theorem lexStep_lt_space (cs : List Char) (acc : List Token) :
    lexStep '<' (' ' :: cs) acc = some (' ' :: cs, acc ++ [Token.new .less "<"]) := rfl

theorem lexStep_le (cs : List Char) (acc : List Token) :
    lexStep '<' ('=' :: cs) acc = some (cs, acc ++ [Token.new .lessEq "<="]) := rfl

theorem lexStep_bang_eq (cs : List Char) (acc : List Token) :
    lexStep '!' ('=' :: cs) acc = some (cs, acc ++ [Token.new .notEq "!="]) := rfl

theorem lexStep_quote (v cs : List Char) (acc : List Token)
    (hv : ∀ x ∈ v, (x != quoteChar) = true) :
    lexStep quoteChar (v ++ quoteChar :: cs) acc =
      some (cs, acc ++ [Token.new .stringObject (String.mk v)]) := by
  have ht := takeWhile_all_append (fun c => c != quoteChar) v (quoteChar :: cs) hv
  unfold lexStep consume_string_object
  rw [ht.1, ht.2]
  simp [List.takeWhile_cons, List.dropWhile_cons,
    show quoteChar.isWhitespace = false by decide,
    show ¬(quoteChar = '=') by decide, show ¬(quoteChar = '+') by decide,
    show ¬(quoteChar = '-') by decide, show ¬(quoteChar = '>') by decide,
    show ¬(quoteChar = '<') by decide, show ¬(quoteChar = ',') by decide,
    show ¬(quoteChar = '.') by decide, show ¬(quoteChar = '(') by decide,
    show ¬(quoteChar = ')') by decide, show ¬(quoteChar = '!') by decide]

theorem lexStep_digit (d : Char) (ds cs : List Char) (acc : List Token)
    (hd : d.isDigit = true) (hds : ∀ x ∈ ds, Char.isDigit x = true)
    (hcs1 : cs.takeWhile Char.isDigit = []) (hcs2 : cs.dropWhile Char.isDigit = cs) :
    lexStep d (ds ++ cs) acc =
      some (cs, acc ++ [Token.new .integer (String.mk (d :: ds))]) := by
  obtain ⟨hws, f1, f2, f3, f4, f5, f6, f7, f8, f9, f10, f11⟩ := isDigit_facts d hd
  have ht := takeWhile_all_append Char.isDigit ds cs hds
  unfold lexStep consume_integer
  rw [ht.1, ht.2]
  simp [hws, f1, f2, f3, f4, f5, f6, f7, f8, f9, f10, f11, hd, hcs1, hcs2]

theorem lexStep_ident_like (c : Char) (lit cs : List Char) (acc : List Token)
    (hc : is_literal c = true) (hlit : ∀ x ∈ lit, is_literal_or_digit x = true)
    (hcs1 : cs.takeWhile is_literal_or_digit = [])
    (hcs2 : cs.dropWhile is_literal_or_digit = cs)
    (hnq : (search_keywords (String.mk (c :: lit))).is_query_method = false) :
    lexStep c (lit ++ cs) acc =
      some (cs, acc ++ [search_keywords (String.mk (c :: lit))]) := by
  obtain ⟨hws, f1, f2, f3, f4, f5, f6, f7, f8, f9, f10, f11, f12⟩ := is_literal_facts c hc
  have ht := takeWhile_all_append is_literal_or_digit lit cs hlit
  unfold lexStep consume_literal
  rw [ht.1, ht.2]
  simp [hws, f1, f2, f3, f4, f5, f6, f7, f8, f9, f10, f11, f12, hc, hnq, hcs1, hcs2]

end Soql

namespace Soql

/-! ## LexDone composition steps -/

theorem lexDone_space (cs : List Char) (acc ts : List Token)
    (h : LexDone cs acc ts) : LexDone (' ' :: cs) acc ts :=
  lexDone_step ' ' cs cs acc acc ts (lexStep_space cs acc) h

theorem lexDone_lparen (cs : List Char) (acc ts : List Token)
    (h : LexDone cs (acc ++ [Token.new .lparen "("]) ts) : LexDone ('(' :: cs) acc ts :=
  lexDone_step '(' cs cs acc _ ts (lexStep_lparen cs acc) h

theorem lexDone_rparen (cs : List Char) (acc ts : List Token)
    (h : LexDone cs (acc ++ [Token.new .rparen ")"]) ts) : LexDone (')' :: cs) acc ts :=
  lexDone_step ')' cs cs acc _ ts (lexStep_rparen cs acc) h

theorem lexDone_dot (cs : List Char) (acc ts : List Token)
    (h : LexDone cs (acc ++ [Token.new .dot "."]) ts) : LexDone ('.' :: cs) acc ts :=
  lexDone_step '.' cs cs acc _ ts (lexStep_dot cs acc) h

theorem lexDone_ident (a : String) (ha : validIdent a = true) (cs : List Char)
    (acc ts : List Token) (hsep : not_ident_glue cs = true)
    (h : LexDone cs (acc ++ [Token.new .identifire a]) ts) :
    LexDone (a.data ++ cs) acc ts := by
  have ha2 : validIdentChars a.data = true ∧
      ((search_keywords a).kind == TokenKind.identifire) = true := by
    simpa [validIdent, Bool.and_eq_true] using ha
  obtain ⟨hchars, hkind⟩ := ha2
  cases hdata : a.data with
  | nil => rw [hdata] at hchars; simp [validIdentChars] at hchars
  | cons c lit =>
    rw [hdata] at hchars
    simp only [validIdentChars, Bool.and_eq_true, List.all_eq_true] at hchars
    obtain ⟨hc, hlit⟩ := hchars
    have hmk : String.mk (c :: lit) = a := by rw [← hdata]
    have htok : search_keywords (String.mk (c :: lit)) = Token.new .identifire a := by
      rw [hmk]
      have hlitl : (search_keywords a).literal = a := search_keywords_literal a
      have hk : (search_keywords a).kind = .identifire := by
        exact beq_iff_eq.mp hkind
      cases hsk : search_keywords a with
      | mk k l =>
        rw [hsk] at hlitl hk
        simp only at hlitl hk
        rw [hlitl, hk]
        rfl
    have hglue := not_ident_glue_facts cs hsep
    have hstep := lexStep_ident_like c lit cs acc hc hlit hglue.1 hglue.2
      (by rw [htok]; rfl)
    show LexDone (c :: (lit ++ cs)) acc ts
    exact lexDone_step c (lit ++ cs) cs acc _ ts hstep (by rw [htok]; exact h)

theorem lexDone_op (op : Token) (hop : cond_op_ok op = true) (cs : List Char)
    (acc ts : List Token) (h : LexDone (' ' :: cs) (acc ++ [op]) ts) :
    LexDone (op.literal.data ++ ' ' :: cs) acc ts := by
  obtain ⟨k, l⟩ := op
  simp only [cond_op_ok, Bool.or_eq_true, Bool.and_eq_true, beq_iff_eq] at hop
  have hng : not_ident_glue (' ' :: cs) = true := by
    simp [not_ident_glue, show is_literal_or_digit ' ' = false by decide]
  have hgf := not_ident_glue_facts (' ' :: cs) hng
  rcases hop with ((((((((⟨rfl, rfl⟩ | ⟨rfl, rfl⟩) | ⟨rfl, rfl⟩) | ⟨rfl, rfl⟩) |
    ⟨rfl, rfl⟩) | ⟨rfl, rfl⟩) | ⟨rfl, rfl | rfl⟩) | ⟨rfl, rfl | rfl⟩) |
    ⟨rfl, rfl | rfl⟩)
  · exact lexDone_step '=' (' ' :: cs) (' ' :: cs) acc _ ts (lexStep_eq_char _ acc) h
  · exact lexDone_step '!' ('=' :: ' ' :: cs) (' ' :: cs) acc _ ts
      (lexStep_bang_eq _ acc) h
  · exact lexDone_step '>' (' ' :: cs) (' ' :: cs) acc _ ts (lexStep_gt_space _ acc) h
  · exact lexDone_step '>' ('=' :: ' ' :: cs) (' ' :: cs) acc _ ts (lexStep_ge _ acc) h
  · exact lexDone_step '<' (' ' :: cs) (' ' :: cs) acc _ ts (lexStep_lt_space _ acc) h
  · exact lexDone_step '<' ('=' :: ' ' :: cs) (' ' :: cs) acc _ ts (lexStep_le _ acc) h
  · exact lexDone_step 'l' ("ike".data ++ ' ' :: cs) (' ' :: cs) acc _ ts
      (lexStep_ident_like 'l' "ike".data (' ' :: cs) acc (by decide) (by decide)
        hgf.1 hgf.2 (by rfl)) h
  · exact lexDone_step 'L' ("IKE".data ++ ' ' :: cs) (' ' :: cs) acc _ ts
      (lexStep_ident_like 'L' "IKE".data (' ' :: cs) acc (by decide) (by decide)
        hgf.1 hgf.2 (by rfl)) h
  · exact lexDone_step 'a' ("nd".data ++ ' ' :: cs) (' ' :: cs) acc _ ts
      (lexStep_ident_like 'a' "nd".data (' ' :: cs) acc (by decide) (by decide)
        hgf.1 hgf.2 (by rfl)) h
  · exact lexDone_step 'A' ("ND".data ++ ' ' :: cs) (' ' :: cs) acc _ ts
      (lexStep_ident_like 'A' "ND".data (' ' :: cs) acc (by decide) (by decide)
        hgf.1 hgf.2 (by rfl)) h
  · exact lexDone_step 'o' ("r".data ++ ' ' :: cs) (' ' :: cs) acc _ ts
      (lexStep_ident_like 'o' "r".data (' ' :: cs) acc (by decide) (by decide)
        hgf.1 hgf.2 (by rfl)) h
  · exact lexDone_step 'O' ("R".data ++ ' ' :: cs) (' ' :: cs) acc _ ts
      (lexStep_ident_like 'O' "R".data (' ' :: cs) acc (by decide) (by decide)
        hgf.1 hgf.2 (by rfl)) h

theorem lexDone_value (val : Token) (hv : value_tok_ok val = true) (cs : List Char)
    (acc ts : List Token) (hsep : sep_after cs = true)
    (h : LexDone cs (acc ++ [val]) ts) :
    LexDone ((Expr.value val val.literal).string.data ++ cs) acc ts := by
  obtain ⟨k, l⟩ := val
  simp only [value_tok_ok, Bool.or_eq_true, Bool.and_eq_true, beq_iff_eq,
    Bool.not_eq_true', List.all_eq_true] at hv
  have hsf := sep_after_facts cs hsep
  rcases hv with ⟨⟨rfl, hne⟩, hdig⟩ | ⟨rfl, hq⟩
  · cases hld : l.data with
    | nil => rw [hld] at hne; simp at hne
    | cons d ds =>
      have hmk : String.mk (d :: ds) = l := by rw [← hld]
      have hd : d.isDigit = true := by
        have := hdig d (by rw [hld]; simp)
        exact this
      have hds : ∀ x ∈ ds, Char.isDigit x = true := by
        intro x hx
        exact hdig x (by rw [hld]; simp [hx])
      have hstep := lexStep_digit d ds cs acc hd hds hsf.2.2.1 hsf.2.2.2
      show LexDone (l.data ++ cs) acc ts
      rw [hld]
      show LexDone (d :: (ds ++ cs)) acc ts
      refine lexDone_step d (ds ++ cs) cs acc _ ts hstep ?_
      rw [hmk]
      exact h
  · show LexDone ((squote ++ l ++ squote).data ++ cs) acc ts
    have hdata : (squote ++ l ++ squote).data ++ cs =
        quoteChar :: (l.data ++ quoteChar :: cs) := by
      simp [String.data_append, squote]
    rw [hdata]
    have hvq : ∀ x ∈ l.data, (x != quoteChar) = true := by
      intro x hx
      simp [hq x hx]
    have hstep := lexStep_quote l.data cs acc hvq
    have hmk : String.mk l.data = l := rfl
    refine lexDone_step quoteChar (l.data ++ quoteChar :: cs) cs acc _ ts hstep ?_
    rw [hmk]
    exact h

end Soql

namespace Soql

theorem infix_op_ok_cond (t : Token) (h : infix_op_ok t = true) : cond_op_ok t = true := by
  simp only [infix_op_ok, Bool.or_eq_true, Bool.and_eq_true] at h
  simp only [cond_op_ok, Bool.or_eq_true, Bool.and_eq_true]
  tauto

theorem not_ident_glue_space (cs : List Char) : not_ident_glue (' ' :: cs) = true := by
  simp [not_ident_glue, show is_literal_or_digit ' ' = false by decide]

theorem not_ident_glue_dot (cs : List Char) : not_ident_glue ('.' :: cs) = true := by
  simp [not_ident_glue, show is_literal_or_digit '.' = false by decide]

theorem sep_after_space (cs : List Char) : sep_after (' ' :: cs) = true := by
  simp [sep_after]

theorem sep_after_rparen (cs : List Char) : sep_after (')' :: cs) = true := by
  simp [sep_after]

theorem wftok_lexDone (e : Expr) (ts : List Token) (h : WFTok e ts) :
    ∀ (cs : List Char) (acc ts' : List Token), sep_after cs = true →
    LexDone cs (acc ++ ts) ts' → LexDone (e.string.data ++ cs) acc ts' := by
  induction h with
  | condSimple a op val ha hop hv =>
    intro cs acc ts' hsep h0
    have h1 := lexDone_value val hv cs (acc ++ [Token.new .identifire a, op]) ts' hsep
      (by simpa [List.append_assoc] using h0)
    have h2 := lexDone_space _ _ _ h1
    have h3 := lexDone_op op hop _ (acc ++ [Token.new .identifire a]) ts'
      (by simpa [List.append_assoc] using h2)
    have h4 := lexDone_space _ _ _ h3
    have h5 := lexDone_ident a ha _ acc ts' (not_ident_glue_space _)
      (by simpa [List.append_assoc] using h4)
    have hchars :
        (Expr.string (.condition (Token.new .identifire a) ⟨Token.new .identifire a, a⟩
            ⟨op, op.literal⟩ (.value val val.literal))).data ++ cs =
          a.data ++ (' ' :: (op.literal.data ++ (' ' ::
            ((Expr.value val val.literal).string.data ++ cs)))) := by
      simp [Expr.string, FieldLiteral.string, OperatorLiteral.string, String.data_append,
        show (" " : String).data = [' '] from rfl, List.append_assoc]
    rw [hchars]
    exact h5
  | condDotted a b op val ha hb hop hv =>
    intro cs acc ts' hsep h0
    have h1 := lexDone_value val hv cs
      (acc ++ [Token.new .identifire a, Token.new .dot ".", Token.new .identifire b, op])
      ts' hsep (by simpa [List.append_assoc] using h0)
    have h2 := lexDone_space _ _ _ h1
    have h3 := lexDone_op op hop _
      (acc ++ [Token.new .identifire a, Token.new .dot ".", Token.new .identifire b]) ts'
      (by simpa [List.append_assoc] using h2)
    have h4 := lexDone_space _ _ _ h3
    have h5 := lexDone_ident b hb _
      (acc ++ [Token.new .identifire a, Token.new .dot "."]) ts' (not_ident_glue_space _)
      (by simpa [List.append_assoc] using h4)
    have h6 := lexDone_dot _ (acc ++ [Token.new .identifire a]) ts'
      (by simpa [List.append_assoc] using h5)
    have h7 := lexDone_ident a ha _ acc ts' (not_ident_glue_dot _)
      (by simpa [List.append_assoc] using h6)
    have hchars :
        (Expr.string (.condition (Token.new .identifire a)
            ⟨Token.new .identifire a, a ++ "." ++ b⟩
            ⟨op, op.literal⟩ (.value val val.literal))).data ++ cs =
          a.data ++ ('.' :: (b.data ++ (' ' :: (op.literal.data ++ (' ' ::
            ((Expr.value val val.literal).string.data ++ cs)))))) := by
      simp [Expr.string, FieldLiteral.string, OperatorLiteral.string, String.data_append,
        show (" " : String).data = [' '] from rfl,
        show ("." : String).data = ['.'] from rfl, List.append_assoc]
    rw [hchars]
    exact h7
  | infixNode op l r lt rt hop hl hr ihl ihr =>
    intro cs acc ts' hsep h0
    have h1 := lexDone_rparen cs (acc ++ (Token.new .lparen "(" :: lt ++ op :: rt)) ts'
      (by simpa [List.append_assoc] using h0)
    have h2 := ihr (')' :: cs) (acc ++ (Token.new .lparen "(" :: lt ++ [op])) ts'
      (sep_after_rparen cs) (by simpa [List.append_assoc] using h1)
    have h3 := lexDone_space _ _ _ h2
    have h4 := lexDone_op op (infix_op_ok_cond op hop) _
      (acc ++ (Token.new .lparen "(" :: lt)) ts' (by simpa [List.append_assoc] using h3)
    have h5 := lexDone_space _ _ _ h4
    have h6 := ihl (' ' :: (op.literal.data ++ (' ' :: (Expr.string r).data ++ ')' :: cs)))
      (acc ++ [Token.new .lparen "("]) ts' (sep_after_space _)
      (by simpa [List.append_assoc] using h5)
    have h7 := lexDone_lparen _ acc ts' (by simpa [List.append_assoc] using h6)
    have hchars :
        (Expr.string (.infixExpression op l op.literal r)).data ++ cs =
          '(' :: ((Expr.string l).data ++ (' ' :: (op.literal.data ++ (' ' ::
            ((Expr.string r).data ++ (')' :: cs)))))) := by
      simp [Expr.string, String.data_append,
        show (" " : String).data = [' '] from rfl,
        show ("(" : String).data = ['('] from rfl,
        show (")" : String).data = [')'] from rfl, List.append_assoc]
    rw [hchars]
    exact (by simpa [List.append_assoc] using h7)

end Soql

namespace Soql

theorem lexChars_nil (f : Nat) (acc : List Token) :
    lexChars f [] acc = .done (acc ++ [Token.new .eof ""]) := by
  cases f <;> rfl

theorem lexStep_length (c : Char) (input : List Char) (tokens : List Token)
    (rest : List Char) (toks2 : List Token)
    (hstep : lexStep c input tokens = some (rest, toks2)) :
    rest.length ≤ input.length := by
  have hdw : ∀ (p : Char → Bool) (l : List Char), (l.dropWhile p).length ≤ l.length :=
    fun p l => (List.dropWhile_sublist (p := p) (l := l)).length_le
  unfold lexStep at hstep
  by_cases hws : c.isWhitespace = true
  · simp only [hws, if_true, Option.some.injEq, Prod.mk.injEq] at hstep
    obtain ⟨rfl, -⟩ := hstep
    exact Nat.le_refl _
  simp only [hws, if_false, Bool.false_eq_true] at hstep
  by_cases hceq : c = '='
  · simp only [hceq, if_true, Option.some.injEq, Prod.mk.injEq] at hstep
    obtain ⟨rfl, -⟩ := hstep
    exact Nat.le_refl _
  simp only [hceq, if_false] at hstep
  by_cases hcpl : c = '+'
  · simp only [hcpl, if_true, Option.some.injEq, Prod.mk.injEq] at hstep
    obtain ⟨rfl, -⟩ := hstep
    exact Nat.le_refl _
  simp only [hcpl, if_false] at hstep
  by_cases hcmi : c = '-'
  · simp only [hcmi, if_true, Option.some.injEq, Prod.mk.injEq] at hstep
    obtain ⟨rfl, -⟩ := hstep
    exact Nat.le_refl _
  simp only [hcmi, if_false] at hstep
  by_cases hcgt : c = '>'
  · simp only [hcgt, if_true] at hstep
    rcases input with _ | ⟨c2, irest⟩
    · simp only [Option.some.injEq, Prod.mk.injEq] at hstep
      obtain ⟨rfl, -⟩ := hstep
      exact Nat.le_refl _
    by_cases hc2 : c2 = '='
    · simp only [hc2, Option.some.injEq, Prod.mk.injEq] at hstep
      obtain ⟨rfl, -⟩ := hstep
      simp
    · simp [hc2] at hstep
      obtain ⟨rfl, -⟩ := hstep
      exact Nat.le_refl _
  simp only [hcgt, if_false] at hstep
  by_cases hclt : c = '<'
  · simp only [hclt, if_true] at hstep
    rcases input with _ | ⟨c2, irest⟩
    · simp only [Option.some.injEq, Prod.mk.injEq] at hstep
      obtain ⟨rfl, -⟩ := hstep
      exact Nat.le_refl _
    by_cases hc2 : c2 = '='
    · simp only [hc2, Option.some.injEq, Prod.mk.injEq] at hstep
      obtain ⟨rfl, -⟩ := hstep
      simp
    · simp [hc2] at hstep
      obtain ⟨rfl, -⟩ := hstep
      exact Nat.le_refl _
  simp only [hclt, if_false] at hstep
  by_cases hcco : c = ','
  · simp only [hcco, if_true, Option.some.injEq, Prod.mk.injEq] at hstep
    obtain ⟨rfl, -⟩ := hstep
    exact Nat.le_refl _
  simp only [hcco, if_false] at hstep
  by_cases hcdo : c = '.'
  · simp only [hcdo, if_true, Option.some.injEq, Prod.mk.injEq] at hstep
    obtain ⟨rfl, -⟩ := hstep
    exact Nat.le_refl _
  simp only [hcdo, if_false] at hstep
  by_cases hclp : c = '('
  · simp only [hclp, if_true, Option.some.injEq, Prod.mk.injEq] at hstep
    obtain ⟨rfl, -⟩ := hstep
    exact Nat.le_refl _
  simp only [hclp, if_false] at hstep
  by_cases hcrp : c = ')'
  · simp only [hcrp, if_true, Option.some.injEq, Prod.mk.injEq] at hstep
    obtain ⟨rfl, -⟩ := hstep
    exact Nat.le_refl _
  simp only [hcrp, if_false] at hstep
  by_cases hcbang : c = '!'
  · simp only [hcbang, if_true] at hstep
    rcases input with _ | ⟨c2, irest⟩
    · simp only [Option.some.injEq, Prod.mk.injEq] at hstep
      obtain ⟨rfl, -⟩ := hstep
      exact Nat.le_refl _
    by_cases hc2 : c2 = '='
    · simp only [hc2, Option.some.injEq, Prod.mk.injEq] at hstep
      obtain ⟨rfl, -⟩ := hstep
      simp
    · simp [hc2] at hstep
      obtain ⟨rfl, -⟩ := hstep
      exact Nat.le_refl _
  simp only [hcbang, if_false] at hstep
  by_cases hcq : c = quoteChar
  · simp only [hcq, if_true, Option.some.injEq, Prod.mk.injEq] at hstep
    obtain ⟨rfl, -⟩ := hstep
    simp only [consume_string_object, List.length_drop]
    have := hdw (fun c => c != quoteChar) input
    omega
  simp only [hcq, if_false] at hstep
  by_cases hcd : c.isDigit = true
  · simp only [hcd, if_true, Option.some.injEq, Prod.mk.injEq] at hstep
    obtain ⟨rfl, -⟩ := hstep
    exact hdw _ _
  simp only [hcd, if_false, Bool.false_eq_true] at hstep
  by_cases hcl : is_literal c = true
  · simp only [hcl, if_true] at hstep
    by_cases hm : (search_keywords (consume_literal input c).1).is_query_method = true
    · simp only [hm, if_true] at hstep
      cases hl : tokens.getLast? with
      | none => simp [hl] at hstep
      | some prev =>
        simp only [hl] at hstep
        by_cases hpd : prev.is_dot = true
        · simp only [hpd, if_true, Option.some.injEq, Prod.mk.injEq] at hstep
          obtain ⟨rfl, -⟩ := hstep
          exact hdw _ _
        · simp [hpd] at hstep
    · simp only [hm, if_false, Bool.false_eq_true, Option.some.injEq, Prod.mk.injEq] at hstep
      obtain ⟨rfl, -⟩ := hstep
      exact hdw _ _
  simp only [hcl, if_false, Bool.false_eq_true, Option.some.injEq, Prod.mk.injEq] at hstep
  obtain ⟨rfl, -⟩ := hstep
  exact Nat.le_refl _

theorem lex_done_mono (f : Nat) : ∀ (cs : List Char) (acc ts : List Token) (g : Nat),
    lexChars f cs acc = .done ts → cs.length < g → lexChars g cs acc = .done ts := by
  induction f with
  | zero =>
    intro cs acc ts g h hg
    cases cs with
    | nil => rw [lexChars_nil] at h; rw [lexChars_nil]; exact h
    | cons c cs0 => simp [lexChars] at h
  | succ f ih =>
    intro cs acc ts g h hg
    cases cs with
    | nil => rw [lexChars_nil] at h; rw [lexChars_nil]; exact h
    | cons c cs0 =>
      obtain ⟨g0, rfl⟩ : ∃ g0, g = g0 + 1 := ⟨g - 1, by omega⟩
      simp only [lexChars] at h ⊢
      cases hstep : lexStep c cs0 acc with
      | none => rw [hstep] at h; simp at h
      | some p =>
        obtain ⟨rest, toks2⟩ := p
        rw [hstep] at h
        have hlen := lexStep_length c cs0 acc rest toks2 hstep
        simp only [List.length_cons] at hg
        exact ih rest toks2 ts g0 h (by omega)

theorem tokenize_of_lexDone (s : String) (ts : List Token)
    (h : LexDone s.data [] ts) : tokenize s = .done ts := by
  obtain ⟨f, hf⟩ := h
  exact lex_done_mono f s.data [] ts (s.data.length + 1) hf (by omega)

theorem lexDone_nil (acc : List Token) :
    LexDone [] acc (acc ++ [Token.new .eof ""]) := ⟨1, rfl⟩

end Soql

namespace Soql

theorem cond_op_ok_is_operator (t : Token) (h : cond_op_ok t = true) :
    t.is_operator = true := by
  rcases t with ⟨k, lit⟩
  cases k <;> simp_all [cond_op_ok, Token.is_operator]

theorem value_tok_kinds (t : Token) (h : value_tok_ok t = true) :
    t.kind = .integer ∨ t.kind = .stringObject := by
  simp only [value_tok_ok, Bool.or_eq_true, Bool.and_eq_true, beq_iff_eq] at h
  rcases h with ⟨⟨h1, -⟩, -⟩ | ⟨h1, -⟩
  · exact Or.inl h1
  · exact Or.inr h1

theorem infix_op_kinds (t : Token) (h : infix_op_ok t = true) :
    t.kind = .andKw ∨ t.kind = .orKw := by
  simp only [infix_op_ok, Bool.or_eq_true, Bool.and_eq_true, beq_iff_eq] at h
  rcases h with ⟨h1, -⟩ | ⟨h1, -⟩
  · exact Or.inl h1
  · exact Or.inr h1

theorem wftok_depth_le (e : Expr) (ts : List Token) (h : WFTok e ts) :
    exprDepth e + 1 ≤ ts.length := by
  induction h with
  | condSimple a op val ha hop hv => simp [exprDepth]
  | condDotted a b op val ha hb hop hv => simp [exprDepth]
  | infixNode op l r lt rt hop hl hr ihl ihr =>
    simp only [exprDepth, List.length_cons, List.length_append] at *
    omega

theorem wftok_parse (e : Expr) (ts : List Token) (h : WFTok e ts) :
    ∀ (rest : List Token) (cur : Token) (fuel : Nat), exprDepth e ≤ fuel →
    parse_where_expressions (fuel + 1) .start ⟨ts ++ rest, cur⟩ =
      parse_where_expressions fuel (.loopMode e) ⟨rest, lastTokOf e⟩ := by
  induction h with
  | condSimple a op val ha hop hv =>
    intro rest cur fuel hfuel
    obtain ⟨f, rfl⟩ : ∃ f, fuel = f + 1 := ⟨fuel - 1, by simp [exprDepth] at hfuel; omega⟩
    simp only [List.cons_append, List.nil_append]
    rw [pwe_start_ident (f + 1) (Token.new .identifire a) _ cur rfl,
      parse_condition_simple f cur (Token.new .identifire a) op val rest rfl
        (cond_op_ok_is_operator op hop) (value_tok_kinds val hv)]
    rfl
  | condDotted a b op val ha hb hop hv =>
    intro rest cur fuel hfuel
    obtain ⟨f, rfl⟩ : ∃ f, fuel = f + 1 := ⟨fuel - 1, by simp [exprDepth] at hfuel; omega⟩
    simp only [List.cons_append, List.nil_append]
    rw [pwe_start_ident (f + 1) (Token.new .identifire a) _ cur rfl,
      parse_condition_dotted f cur (Token.new .identifire a) (Token.new .dot ".")
        (Token.new .identifire b) op val rest rfl rfl
        (cond_op_ok_is_operator op hop) (value_tok_kinds val hv)]
    rfl
  | infixNode op l r lt rt hop hl hr ihl ihr =>
    intro rest cur fuel hfuel
    simp only [exprDepth] at hfuel
    obtain ⟨f2, rfl⟩ : ∃ f2, fuel = f2 + 4 := ⟨fuel - 4, by omega⟩
    simp only [List.cons_append, List.append_assoc, List.singleton_append,
      List.nil_append]
    rw [show f2 + 4 + 1 = (f2 + 4) + 1 from rfl]
    rw [pwe_start_lparen (f2 + 4) (Token.new .lparen "(")
      (lt ++ op :: (rt ++ Token.new .rparen ")" :: rest)) cur rfl]
    rw [show f2 + 4 = (f2 + 3) + 1 from rfl]
    rw [ihl (op :: (rt ++ Token.new .rparen ")" :: rest)) (Token.new .lparen "(")
      (f2 + 3) (by omega)]
    rw [show f2 + 3 = (f2 + 2) + 1 from rfl]
    rw [pwe_loop_op (f2 + 2) l op (rt ++ Token.new .rparen ")" :: rest) (lastTokOf l)
      (infix_op_kinds op hop)]
    rw [show f2 + 2 = (f2 + 1) + 1 from rfl]
    rw [ihr (Token.new .rparen ")" :: rest) op (f2 + 1) (by omega)]
    rw [pwe_loop_rparen f2 r (Token.new .rparen ")") rest (lastTokOf r) rfl]
    simp only [PRes.pass]
    rw [pwe_loop_rparen (f2 + 1) (.infixExpression op l op.literal r)
      (Token.new .rparen ")") rest (lastTokOf r) rfl]
    simp only [PRes.pass, Parser.expect_peek, Parser.peek_token_is, Parser.peek_token,
      Parser.advance, List.head?]
    rfl

end Soql

namespace Soql

/-- C9: amended round trip. For every where-expression of the lexer-shaped,
sign-free family WFTok (parser-producible conditions and AND/OR infix nodes
whose values carry no sign prefix), the rendering produced by Expr::string
re-tokenizes to exactly the paired token list, re-parses with
parse_where_expressions to the same expression, and therefore re-renders to
the identical string. -/
theorem c9_theorem (e : Expr) (ts : List Token) (h : WFTok e ts) :
    tokenize e.string = .done (ts ++ [Token.new .eof ""]) ∧
    reparse_where_expr e.string = some e ∧
    (reparse_where_expr e.string).map Expr.string = some e.string := by
  have htok : tokenize e.string = .done (ts ++ [Token.new .eof ""]) := by
    apply tokenize_of_lexDone
    have h0 : LexDone [] ([] ++ ts) (ts ++ [Token.new .eof ""]) := by
      simpa using lexDone_nil ts
    simpa using wftok_lexDone e ts h [] [] (ts ++ [Token.new .eof ""]) rfl h0
  have hdepth := wftok_depth_le e ts h
  have hp : parse_where_expressions ((ts ++ [Token.new .eof ""]).length + 1) .start
      (Parser.new (ts ++ [Token.new .eof ""])) = .ok e ⟨[Token.new .eof ""], lastTokOf e⟩ := by
    have hl : (ts ++ [Token.new .eof ""]).length = ts.length + 1 := by simp
    rw [hl]
    show parse_where_expressions (ts.length + 1 + 1) .start
      ⟨ts ++ [Token.new .eof ""], Token.new .illegal ""⟩ = _
    rw [wftok_parse e ts h [Token.new .eof ""] (Token.new .illegal "") (ts.length + 1)
      (by omega)]
    exact pwe_loop_eof ts.length e (Token.new .eof "") [] (lastTokOf e) rfl
  have hrp : reparse_where_expr e.string = some e := by
    simp only [reparse_where_expr, htok, hp]
  exact ⟨htok, hrp, by rw [hrp]; rfl⟩

theorem c9_witness :
    tokenize (Expr.condition (Token.new .identifire "Id")
        ⟨Token.new .identifire "Id", "Id"⟩ ⟨Token.new .eq "=", "="⟩
        (.value (Token.new .integer "1") "1")).string =
      .done ([Token.new .identifire "Id", Token.new .eq "=", Token.new .integer "1"] ++
        [Token.new .eof ""]) ∧
    reparse_where_expr (Expr.condition (Token.new .identifire "Id")
        ⟨Token.new .identifire "Id", "Id"⟩ ⟨Token.new .eq "=", "="⟩
        (.value (Token.new .integer "1") "1")).string =
      some (Expr.condition (Token.new .identifire "Id")
        ⟨Token.new .identifire "Id", "Id"⟩ ⟨Token.new .eq "=", "="⟩
        (.value (Token.new .integer "1") "1")) ∧
    (reparse_where_expr (Expr.condition (Token.new .identifire "Id")
        ⟨Token.new .identifire "Id", "Id"⟩ ⟨Token.new .eq "=", "="⟩
        (.value (Token.new .integer "1") "1")).string).map Expr.string =
      some (Expr.condition (Token.new .identifire "Id")
        ⟨Token.new .identifire "Id", "Id"⟩ ⟨Token.new .eq "=", "="⟩
        (.value (Token.new .integer "1") "1")).string :=
  c9_theorem _ _ (WFTok.condSimple "Id" (Token.new .eq "=") (Token.new .integer "1")
    rfl rfl rfl)

end Soql
